import Mathlib

/-!
Verification of the metabolomics toolkit's dataset manager
(`src/manager.py`) and residual-extraction handler (`src/effects_models.py`).

The development shallowly embeds the pandas tables the code manipulates:
a DataFrame is an index name, a list of column names, and a list of rows,
where each row is a label paired with its cells (one cell per column).
Cells, labels and column names are all `Val` (a string, an integer, or the
missing marker NaN), mirroring pandas object columns.  Operations are
translated one-for-one from the source; where the source relies on a pandas
behaviour (KeyError on missing labels, left-join padding, groupby dropping
NaN keys, column insertion position of `reset_index`, ...) the model encodes
that behaviour explicitly.
-/

namespace MetaboTK

/-- A pandas cell value: missing (NaN), a string, or an integer. -/
inductive Val where
  | nan : Val
  | vstr : String → Val
  | vint : Int → Val
deriving DecidableEq, Repr

/-- Python `str(x)` / pandas `astype(str)` on a cell.  `str()` of a NaN cell
renders as the string "nan". -/
def valToStr : Val → Val
  | Val.nan => Val.vstr "nan"
  | Val.vstr s => Val.vstr s
  | Val.vint n => Val.vstr (toString n)

/-- Total order used by pandas when sorting group keys.  Within a type it is
the usual order; across types it is an arbitrary fixed order (pandas raises
on mixed-type keys, a case none of the claims exercises). -/
def valLE : Val → Val → Bool
  | Val.nan, _ => true
  | _, Val.nan => false
  | Val.vint a, Val.vint b => a ≤ b
  | Val.vint _, Val.vstr _ => true
  | Val.vstr _, Val.vint _ => false
  | Val.vstr a, Val.vstr b => a ≤ b

/-- Insert into a sorted list (helper for `insSort`). -/
def insVal (a : Val) : List Val → List Val
  | [] => [a]
  | b :: l => if valLE a b then a :: b :: l else b :: insVal a l

/-- Insertion sort by `valLE`; models the sorted group keys of
`DataFrame.groupby(sort=True)`. -/
def insSort : List Val → List Val
  | [] => []
  | a :: l => insVal a (insSort l)

/-- A pandas DataFrame: index name, column names, and rows (label, cells).
The index is the list of row labels; cells are aligned positionally with
`cols`. -/
structure DF where
  iname : String
  cols : List Val
  rows : List (Val × List Val)
deriving DecidableEq, Repr

/-- The empty DataFrame `pd.DataFrame()`. -/
def DF.empty : DF := ⟨"", [], []⟩

/-- The index of the frame, as the list of row labels. -/
def DF.labels (df : DF) : List Val := df.rows.map Prod.fst

/-- A frame is well-formed when every row has exactly one cell per column. -/
def DF.WF (df : DF) : Prop :=
  ∀ p ∈ df.rows, (Prod.snd p).length = df.cols.length

instance (df : DF) : Decidable df.WF :=
  decidable_of_iff (∀ p ∈ df.rows, (Prod.snd p).length = df.cols.length)
    Iff.rfl

/-- Value of the first column named `d` in a row (pandas positional lookup
by column label). Callers guard presence of `d`; NaN is a junk default. -/
def getValD : List Val → List Val → Val → Val
  | c :: cs, v :: vs, d => if c = d then v else getValD cs vs d
  | _, _, _ => Val.nan

/-- Value of the first column named `d` together with the remaining cells
(used by `set_index`, which removes the column it consumes). -/
def extractCol : List Val → List Val → Val → Val × List Val
  | c :: cs, v :: vs, d =>
      if c = d then (v, vs)
      else
        let r := extractCol cs vs d
        (r.1, v :: r.2)
  | _, vs, _ => (Val.nan, vs)

/-- Remove the first occurrence of `d` from a column list. -/
def eraseFirst : List Val → Val → List Val
  | c :: cs, d => if c = d then cs else c :: eraseFirst cs d
  | [], _ => []

/-- Apply `f` to the cell of the first column named `d` in a row
(models `df[d] = df[d].map(f)`-style single-column assignment). -/
def mapFirstCol : List Val → List Val → Val → (Val → Val) → List Val
  | c :: cs, v :: vs, d, f => if c = d then f v :: vs else v :: mapFirstCol cs vs d f
  | _, vs, _, _ => vs

/-- All cells of columns named `d`, in order (pandas keeps every duplicate
column that matches a selected label). -/
def selCells : List Val → List Val → Val → List Val
  | c :: cs, v :: vs, d =>
      if c = d then v :: selCells cs vs d else selCells cs vs d
  | _, _, _ => []

/-- Cells remaining after dropping every column whose name is in `ls`. -/
def keepCells : List Val → List Val → List Val → List Val
  | c :: cs, v :: vs, ls =>
      if c ∈ ls then keepCells cs vs ls else v :: keepCells cs vs ls
  | _, _, _ => []

/-- Overwrite the cells of every column named `d` with `w`
(pandas `df[d] = series` hits all duplicate columns named `d`). -/
def setCells : List Val → List Val → Val → Val → List Val
  | c :: cs, v :: vs, d, w => (if c = d then w else v) :: setCells cs vs d w
  | _, vs, _, _ => vs

/-- `df.loc[sel]` row selection: KeyError (`none`) if any label of `sel` is
absent; otherwise, for each requested label, every row carrying it. -/
def DF.locRows (df : DF) (sel : List Val) : Option DF :=
  if ∀ l ∈ sel, l ∈ df.labels then
    some ⟨df.iname, df.cols,
      sel.flatMap (fun l => df.rows.filter (fun p => decide (p.1 = l)))⟩
  else none

/-- `df[sel]` column selection: KeyError (`none`) if any name is absent;
otherwise, for each requested name, every matching column. -/
def DF.selectCols (df : DF) (sel : List Val) : Option DF :=
  if ∀ c ∈ sel, c ∈ df.cols then
    some ⟨df.iname,
      sel.flatMap (fun c => df.cols.filter (fun c' => decide (c' = c))),
      df.rows.map (fun p => (p.1, sel.flatMap (fun c => selCells df.cols p.2 c)))⟩
  else none

/-- `df.drop(index=ls)`: KeyError (`none`) if any label is absent, else
remove every row labelled by a member of `ls`. -/
def DF.dropIndexLs (df : DF) (ls : List Val) : Option DF :=
  if ∀ l ∈ ls, l ∈ df.labels then
    some ⟨df.iname, df.cols, df.rows.filter (fun p => decide (p.1 ∉ ls))⟩
  else none

/-- `df.drop(columns=ls)`: KeyError (`none`) if any name is absent, else
remove every column named by a member of `ls`. -/
def DF.dropColsLs (df : DF) (ls : List Val) : Option DF :=
  if ∀ c ∈ ls, c ∈ df.cols then
    some ⟨df.iname, df.cols.filter (fun c => decide (c ∉ ls)),
      df.rows.map (fun p => (p.1, keepCells df.cols p.2 ls))⟩
  else none

/-- `df.set_index(s)`: the first column named `s` becomes the index (its
values become the labels, the old labels are discarded, the column is
removed, and the index is named `s`).  Every call site in the source checks
presence of `s` first; pandas raises KeyError otherwise. -/
def DF.setIndex (df : DF) (s : String) : DF :=
  ⟨s, eraseFirst df.cols (Val.vstr s),
    df.rows.map (fun p =>
      ((extractCol df.cols p.2 (Val.vstr s)).1,
       (extractCol df.cols p.2 (Val.vstr s)).2))⟩

/-- `df.reset_index()`: the index becomes the leading column (named by the
index name), and the new index is the default integer range with no name. -/
def DF.resetIndex (df : DF) : DF :=
  ⟨"", Val.vstr df.iname :: df.cols,
    ((List.range df.rows.length).zip df.rows).map
      (fun q => (Val.vint q.1, q.2.1 :: q.2.2))⟩

/-- `df[s] = df[s].astype(str)`: string-coerce the cells of column `s`. -/
def DF.astypeStrCol (df : DF) (s : String) : DF :=
  ⟨df.iname, df.cols,
    df.rows.map (fun p => (p.1, mapFirstCol df.cols p.2 (Val.vstr s) valToStr))⟩

/-- `l.merge(r, left_index=True, right_index=True, how="inner")`: rows of
`l` whose label also appears in `r`, in `l`'s order, with `r`'s matching
cells appended (cross product on duplicate labels, as in pandas). -/
def DF.mergeInner (l r : DF) : DF :=
  ⟨l.iname, l.cols ++ r.cols,
    l.rows.flatMap (fun p =>
      (r.rows.filter (fun q => decide (q.1 = p.1))).map
        (fun q => (p.1, p.2 ++ q.2)))⟩

/-- `l.merge(r, left_index=True, right_index=True, how="left")`: every row
of `l`; unmatched labels are padded with NaN across `r`'s columns. -/
def DF.mergeLeft (l r : DF) : DF :=
  ⟨l.iname, l.cols ++ r.cols,
    l.rows.flatMap (fun p =>
      let ms := r.rows.filter (fun q => decide (q.1 = p.1))
      if ms.isEmpty then [(p.1, p.2 ++ List.replicate r.cols.length Val.nan)]
      else ms.map (fun q => (p.1, p.2 ++ q.2)))⟩

/-- The values of column `c` down the frame (`df[c]` as a list). -/
def DF.colVals (df : DF) (c : Val) : List Val :=
  df.rows.map (fun p => getValD df.cols p.2 c)

/-- The group of rows whose column-`c` value is `k` (full columns, original
row order), as yielded by `groupby` iteration. -/
def groupDF (df : DF) (c : String) (k : Val) : DF :=
  ⟨df.iname, df.cols,
    df.rows.filter (fun p => decide (getValD df.cols p.2 (Val.vstr c) = k))⟩

/-- The group keys of `df.groupby(c)`: distinct non-NaN values of column
`c`, sorted (`sort=True`, `dropna=True`). -/
def groupKeys (df : DF) (c : String) : List Val :=
  (insSort (df.colVals (Val.vstr c)).dedup).filter (fun k => decide (k ≠ Val.nan))

/-- `df.groupby(by=c)` with pandas defaults: KeyError (`none`) if `c` is
absent; otherwise one group per key. -/
def DF.groupby (df : DF) (c : String) : Option (List (Val × DF)) :=
  if Val.vstr c ∈ df.cols then
    some ((groupKeys df c).map (fun k => (k, groupDF df c k)))
  else none

/-- `df[c] = series` column assignment with index alignment: rows whose
label is absent from the series get NaN; an absent column is appended. -/
def lookupD (s : List (Val × Val)) (l : Val) : Val :=
  ((s.find? (fun q => decide (q.1 = l))).map Prod.snd).getD Val.nan

/-- See `lookupD`: pandas aligned column assignment. -/
def DF.assignCol (df : DF) (c : Val) (s : List (Val × Val)) : DF :=
  if c ∈ df.cols then
    ⟨df.iname, df.cols,
      df.rows.map (fun p => (p.1, setCells df.cols p.2 c (lookupD s p.1)))⟩
  else
    ⟨df.iname, df.cols ++ [c],
      df.rows.map (fun p => (p.1, p.2 ++ [lookupD s p.1]))⟩

/-!
The dataset state of `DatasetManager` (`src/manager.py`): the three tables,
the cached identifier lists, and the two active identifier column names.
(`_data_provider`/`parser` are ingestion plumbing excluded from the spec's
core; the parser's `import_tables` only forwards the in-memory tables.)
Field `chem_ann` models the source attribute holding the chemical
annotation table; `mid_col` models `_metabolite_id_column` and `sid_col`
models `_sample_id_column`.
-/
structure State where
  sid_col : String
  mid_col : String
  sample_metadata : DF
  samples : List Val
  chem_ann : DF
  metabolites : List Val
  data : DF
deriving DecidableEq, Repr

/-- `DatasetManager.__init__`: empty tables, empty identifier lists. -/
def State.init (sid mid : String) : State :=
  ⟨sid, mid, DF.empty, [], DF.empty, [], DF.empty⟩

/-- Modelled from the spec: `parse_input` lives in `src/utils.py`, which is
not part of the sources; the spec excludes ingestion ("file/sheet
ingestion ... directory/path utilities") as external collaborators, so on
an already in-memory table it yields that table. -/
def parse_input (df : DF) : DF := df

/-- Mutating operations return the state after the call together with the
raised error, if any (`none` = normal return).  A raised Python exception
leaves all mutations made before the raise in place, which the returned
state records. -/
abbrev MRes := State × Option String

/-- `DatasetManager._setup_data`.  Checks the sample-id column in data and
sample metadata, then (in this order) assigns sample metadata (id column
string-coerced, then indexed), data (column names string-coerced via
`str()`, then indexed) and the `samples` list; only then checks the
metabolite-id column and assigns the chemical annotation (id column
string-coerced, then indexed) and `metabolites`.  Note that the data's
row labels are taken from its id column without string coercion. -/
def setup_data (st : State) (chem meta data : DF) : MRes :=
  let chem := parse_input chem
  let meta := parse_input meta
  let data := parse_input data
  if Val.vstr st.sid_col ∈ data.cols ∧ Val.vstr st.sid_col ∈ meta.cols then
    let meta2 := (meta.astypeStrCol st.sid_col).setIndex st.sid_col
    let data2 := DF.setIndex ⟨data.iname, data.cols.map valToStr, data.rows⟩ st.sid_col
    let st1 := { st with sample_metadata := meta2, samples := meta2.labels,
                         data := data2 }
    if Val.vstr st.mid_col ∈ chem.cols then
      let chem2 := (chem.astypeStrCol st.mid_col).setIndex st.mid_col
      ({ st1 with chem_ann := chem2, metabolites := chem2.labels }, none)
    else
      (st1, some "Error setting up data: No metabolite ID column found in chemical annotation")
  else
    (st, some "Error setting up data: No sample ID column found in data")

/-- `DatasetManager._remove_metadata_from_data`:
`self.data = self.data[list(self.chemical_annotation.index)]`
(a missing column raises KeyError, which the `except ValueError` does not
catch, so it propagates). -/
def remove_metadata_from_data (st : State) : MRes :=
  match st.data.selectCols st.chem_ann.labels with
  | none => (st, some "KeyError: columns not in index")
  | some d => ({ st with data := d }, none)

/-- `DatasetManager.import_tables` on in-memory tables: the parser stores
them unchanged, then `_setup_data` and `_remove_metadata_from_data` run. -/
def import_tables (st : State) (data chem meta : DF) : MRes :=
  match setup_data st chem meta data with
  | (st1, some e) => (st1, some ("Error importing data: " ++ e))
  | (st1, none) => remove_metadata_from_data st1

/-- `DatasetManager._update_chemical_annotation`:
`self.chemical_annotation = self.chemical_annotation.loc[list(self.data.columns)]`
then refresh `metabolites`. -/
def update_chem_ann (st : State) : MRes :=
  match st.chem_ann.locRows st.data.cols with
  | none => (st, some "KeyError: labels not in chemical annotation index")
  | some ca => ({ st with chem_ann := ca, metabolites := ca.labels }, none)

/-- `DatasetManager._update_sample_metadata`:
`self.sample_metadata = self.sample_metadata.loc[self.data.index]`
then refresh `samples`. -/
def update_sample_metadata (st : State) : MRes :=
  match st.sample_metadata.locRows st.data.labels with
  | none => (st, some "KeyError: labels not in sample metadata index")
  | some m => ({ st with sample_metadata := m, samples := m.labels }, none)

/-- `DatasetManager.drop_samples` with `inplace=True`: the drop (with
`str()`-coerced identifiers) runs first and raises before any mutation if
a label is absent; on success the data is replaced and the sample metadata
re-synced. -/
def drop_samples (st : State) (ids : List Val) : MRes :=
  match st.data.dropIndexLs (ids.map valToStr) with
  | none => (st, some "KeyError: labels not found in axis")
  | some remaining => update_sample_metadata { st with data := remaining }

/-- `DatasetManager.drop_metabolites` with `inplace=True`: same shape as
`drop_samples`, on the column axis, re-syncing the chemical annotation. -/
def drop_metabolites (st : State) (ids : List Val) : MRes :=
  match st.data.dropColsLs (ids.map valToStr) with
  | none => (st, some "KeyError: labels not found in axis")
  | some remaining => update_chem_ann { st with data := remaining }

/-- The row selector of `drop_xenobiotic_metabolites`:
`chemical_annotation["SUPER_PATHWAY"].str.lower() == "xenobiotics"`.
`Series.str.lower()` yields NaN on non-string cells, and `NaN == s` is
False, so only string cells lowercasing to "xenobiotics" match. -/
def isXeno : Val → Bool
  | Val.vstr s => s.toLower == "xenobiotics"
  | _ => false

/-- The xenobiotic feature identifiers:
`list(chemical_annotation[chemical_annotation["SUPER_PATHWAY"].str.lower() == "xenobiotics"].index)`. -/
def xenoIds (st : State) : List Val :=
  (st.chem_ann.rows.filter (fun p =>
    isXeno (getValD st.chem_ann.cols p.2 (Val.vstr "SUPER_PATHWAY")))).map Prod.fst

/-- `DatasetManager.drop_xenobiotic_metabolites` with `inplace=True`:
reading the `SUPER_PATHWAY` column raises KeyError if absent; otherwise
the matching feature identifiers are forwarded to `drop_metabolites`. -/
def drop_xenobiotic_metabolites (st : State) : MRes :=
  if Val.vstr "SUPER_PATHWAY" ∈ st.chem_ann.cols then
    drop_metabolites st (xenoIds st)
  else (st, some "KeyError: SUPER_PATHWAY")

/-- `DatasetManager.extract_samples`: `self.sample_metadata.loc[ids]`
(KeyError on any identifier absent from the sample metadata — the
identifiers are not string-coerced here) left-merged with the data. -/
def extract_samples (st : State) (ids : List Val) : Option DF :=
  (st.sample_metadata.locRows ids).map (fun m => m.mergeLeft st.data)

/-- `DatasetManager.extract_metabolites`: `self.data[[str(i) for i in ids]]`
(KeyError on any absent column) inner-merged with the sample metadata. -/
def extract_metabolites (st : State) (ids : List Val) : Option DF :=
  (st.data.selectCols (ids.map valToStr)).map
    (fun d => st.sample_metadata.mergeInner d)

/-- The renaming dictionary of `replace_column_names`:
`zip(chemical_annotation.index, chemical_annotation[new_column])`.
Lookup of a key raises KeyError in Python; the caller has checked that
every data column is annotated, so the NaN default is unreachable there. -/
def renDict (st : State) (nc : String) : List (Val × Val) :=
  st.chem_ann.rows.map (fun p => (p.1, getValD st.chem_ann.cols p.2 (Val.vstr nc)))

/-- `DatasetManager.replace_column_names`: check the new column exists,
check every data column is annotated, rename the data columns through the
dictionary, switch the active metabolite id column, re-key the annotation
(`reset_index().set_index(new_column)`), then `_update_chemical_annotation`. -/
def replace_column_names (st : State) (nc : String) : MRes :=
  if Val.vstr nc ∈ st.chem_ann.cols then
    if ∀ c ∈ st.data.cols, c ∈ st.chem_ann.labels then
      let dict := renDict st nc
      let st1 := { st with
        data := ⟨st.data.iname, st.data.cols.map (lookupD dict), st.data.rows⟩,
        mid_col := nc,
        chem_ann := st.chem_ann.resetIndex.setIndex nc }
      update_chem_ann st1
    else (st, some "Missing chemical annotation for some features")
  else (st, some "No column named in the metabolite metadata")

/-- `DatasetManager.merge_sample_metadata_data`: inner join of sample
metadata and data on the index. -/
def merge_smd (st : State) : DF := st.sample_metadata.mergeInner st.data

/-- One iteration of `split_by_sample_column`: select the group's rows
from the data, build a fresh instance, import the three reset tables, and
re-sync all three tables.  Any raised error propagates out of the split. -/
def split_child (st : State) (group : DF) : Except String State :=
  match st.data.locRows group.labels with
  | none => Except.error "KeyError: labels not in data index"
  | some tempdata =>
    match import_tables (State.init st.sid_col st.mid_col)
        tempdata.resetIndex st.chem_ann.resetIndex group.resetIndex with
    | (_, some e) => Except.error e
    | (t1, none) =>
      match update_chem_ann t1 with
      | (_, some e) => Except.error e
      | (t2, none) =>
        match update_sample_metadata t2 with
        | (_, some e) => Except.error e
        | (t3, none) =>
          match remove_metadata_from_data t3 with
          | (_, some e) => Except.error e
          | (t4, none) => Except.ok t4

/-- `DatasetManager.split_by_sample_column`: group the sample metadata by
the column and build one independent dataset per group; the parent state
is never mutated. -/
def split_by_sample_column (st : State) (c : String) :
    Except String (List (Val × State)) :=
  match st.sample_metadata.groupby c with
  | none => Except.error "KeyError: groupby column not found"
  | some groups =>
      groups.mapM (fun g => (split_child st g.2).map (fun child => (g.1, child)))

/-- A write action recorded instead of an actual `to_csv` call: the label
of the table written and its contents at write time. -/
abbrev Writes := List (String × DF)

/-- `DatasetManager.save`: raises on an empty *data* table, then writes
whichever of the three tables a path was supplied for. -/
def save (st : State) (data_path chem_path meta_path : Bool) :
    Except String Writes :=
  if st.data.rows.length = 0 then
    Except.error "Trying to save an empty dataframe"
  else
    Except.ok ((if data_path then [("data", st.data)] else []) ++
      (if chem_path then [("chem_ann", st.chem_ann)] else []) ++
      (if meta_path then [("sample_metadata", st.sample_metadata)] else []))

/-- `DatasetManager.save_merged`: raises on an empty *merged* table, then
writes it, plus the chemical annotation if a path was supplied (never
checked for emptiness). -/
def save_merged (st : State) (chem_path : Bool) : Except String Writes :=
  let m := merge_smd st
  if m.rows.length = 0 then
    Except.error "Trying to save an empty dataframe"
  else
    Except.ok (("merged", m) :: (if chem_path then [("chem_ann", st.chem_ann)] else []))

/-!
`EffectsHandler` (`src/effects_models.py`).  The regression itself
(`smf.ols(...).fit().resid`) is the opaque capability the spec excludes;
it is abstracted by a function `fit` from a metabolite to its residual
series (a label-indexed list of values).  Statsmodels fits on rows of the
merged view, so its residual index is a subset of the merged index — the
theorems take that as a hypothesis.
-/

/-- `EffectsHandler.__init__`, the `merged` attribute. -/
def effects_merged (st : State) : DF := merge_smd st

/-- `EffectsHandler.__init__`, the `residuals` attribute:
`self.data.copy()` with every cell overwritten by NaN (`loc[:] = np.nan`). -/
def effects_residuals0 (st : State) : DF :=
  ⟨st.data.iname, st.data.cols,
    st.data.rows.map (fun p => (p.1, p.2.map (fun _ => Val.nan)))⟩

/-- `EffectsHandler.get_all_residuals`: for each metabolite (in the
dataset's feature order) assign the fitted residual series into that
feature's column of the residual matrix, with pandas index alignment. -/
def get_all_residuals (st : State) (fit : Val → List (Val × Val)) : DF :=
  st.metabolites.foldl (fun res m => res.assignCol m (fit m)) (effects_residuals0 st)

/-! Concrete instances used to witness the theorems and to exhibit
counterexamples. -/

/-- Shorthand for a string cell. -/
def strv (s : String) : Val := Val.vstr s

/-- A small sample-metadata table: samples S1, S2 with a `batch` column. -/
def exMeta : DF :=
  ⟨"", [strv "PARENT_SAMPLE_NAME", strv "batch"],
    [(Val.vint 0, [strv "S1", strv "A"]), (Val.vint 1, [strv "S2", strv "B"])]⟩

/-- Like `exMeta` but the `batch` value of S2 is missing (NaN). -/
def exMetaNaN : DF :=
  ⟨"", [strv "PARENT_SAMPLE_NAME", strv "batch"],
    [(Val.vint 0, [strv "S1", strv "A"]), (Val.vint 1, [strv "S2", Val.nan])]⟩

/-- A small chemical-annotation table: features M1 (a xenobiotic) and M2
(missing pathway), with an alternative name column. -/
def exChem : DF :=
  ⟨"", [strv "CHEM_ID", strv "SUPER_PATHWAY", strv "NAME"],
    [(Val.vint 0, [strv "M1", strv "Xenobiotics", strv "n1"]),
     (Val.vint 1, [strv "M2", Val.nan, strv "n2"])]⟩

/-- A small abundance table for samples S1, S2 and features M1, M2. -/
def exData : DF :=
  ⟨"", [strv "PARENT_SAMPLE_NAME", strv "M1", strv "M2"],
    [(Val.vint 0, [strv "S1", Val.vint 10, Val.vint 20]),
     (Val.vint 1, [strv "S2", Val.vint 11, Val.vint 21])]⟩

/-- Like `exData` but with a row for a sample S4 that the sample metadata
does not contain. -/
def exDataX : DF :=
  ⟨"", [strv "PARENT_SAMPLE_NAME", strv "M1", strv "M2"],
    [(Val.vint 0, [strv "S1", Val.vint 10, Val.vint 20]),
     (Val.vint 1, [strv "S4", Val.vint 11, Val.vint 21])]⟩

/-- An annotation table lacking the CHEM_ID column. -/
def exChemBad : DF := ⟨"", [strv "WRONG_ID"], [(Val.vint 0, [strv "x"])]⟩

/-- The dataset state after importing the small tables. -/
def exSt : State :=
  (import_tables (State.init "PARENT_SAMPLE_NAME" "CHEM_ID") exData exChem exMeta).1

/-- The dataset state imported with the NaN-batch metadata. -/
def exStNaN : State :=
  (import_tables (State.init "PARENT_SAMPLE_NAME" "CHEM_ID") exData exChem exMetaNaN).1

/-- A consistent state whose chemical annotation has zero rows while the
data has one row. -/
def exStSave : State :=
  ⟨"PSN", "CHEM_ID",
    ⟨"PSN", [strv "c"], [(strv "S1", [strv "A"])]⟩, [strv "S1"],
    ⟨"CHEM_ID", [strv "NAME"], []⟩, [],
    ⟨"PSN", [strv "M1"], [(strv "S1", [Val.vint 1])]⟩⟩

/-- The dataset state after importing the data that has the extra sample
S4 absent from the sample metadata (the import succeeds: nothing checks
the row labels). -/
def exStX : State :=
  (import_tables (State.init "PARENT_SAMPLE_NAME" "CHEM_ID") exDataX exChem exMeta).1

/-- A consistent state whose sample metadata has a sample S2 that the
abundance matrix lacks. -/
def exStPad : State :=
  ⟨"PSN", "CHEM_ID",
    ⟨"PSN", [strv "c"], [(strv "S1", [strv "A"]), (strv "S2", [strv "B"])]⟩,
    [strv "S1", strv "S2"],
    ⟨"CHEM_ID", [strv "NAME"], [(strv "M1", [strv "n1"])]⟩, [strv "M1"],
    ⟨"PSN", [strv "M1"], [(strv "S1", [Val.vint 1])]⟩⟩

/-- The spec's AbundanceMatrix invariant: the abundance matrix's column
index equals, as a sequence, the chemical-annotation index, and its row
index is a subset of the sample-metadata index. -/
def Inv (st : State) : Prop :=
  st.data.cols = st.chem_ann.labels ∧
  ∀ l ∈ st.data.labels, l ∈ st.sample_metadata.labels

/-!  Helper lemmas: canonical forms of the row/column selectors under
duplicate-free indices.  -/

/-- The cells of the (first) row labelled `l`. -/
def cellsOfR (rows : List (Val × List Val)) (l : Val) : List Val :=
  ((rows.find? (fun p => decide (p.1 = l))).map Prod.snd).getD []

/-- The cells of the (first) row of `df` labelled `l`. -/
def DF.cellsOf (df : DF) (l : Val) : List Val := cellsOfR df.rows l

theorem cellsOfR_cons (a : Val × List Val) (rows : List (Val × List Val)) (l : Val) :
    cellsOfR (a :: rows) l = if a.1 = l then a.2 else cellsOfR rows l := by
  by_cases h : a.1 = l <;> simp [cellsOfR, List.find?, h]

theorem filter_label_nil (rows : List (Val × List Val)) (l : Val)
    (hl : l ∉ rows.map Prod.fst) :
    rows.filter (fun p => decide (p.1 = l)) = [] := by
  induction rows with
  | nil => rfl
  | cons a rs ih =>
      simp only [List.map_cons, List.mem_cons, not_or] at hl
      simp [List.filter, Ne.symm hl.1, ih hl.2]

theorem filter_label_singleton (rows : List (Val × List Val))
    (hnd : (rows.map Prod.fst).Nodup) (l : Val) (hl : l ∈ rows.map Prod.fst) :
    rows.filter (fun p => decide (p.1 = l)) = [(l, cellsOfR rows l)] := by
  induction rows with
  | nil => simp at hl
  | cons a rs ih =>
      simp only [List.map_cons, List.nodup_cons] at hnd
      rcases List.mem_cons.mp hl with h | h
      · subst h
        rw [List.filter_cons_of_pos (by simp), filter_label_nil rs a.1 hnd.1]
        simp [cellsOfR_cons]
      · have hne : a.1 ≠ l := by
          intro he; exact hnd.1 (he ▸ h)
        rw [List.filter_cons_of_neg (by simp [hne]), ih hnd.2 h]
        simp [cellsOfR_cons, hne]

/-- With a duplicate-free index, each row is its label paired with that
label's cells. -/
theorem rows_reconstruct (rows : List (Val × List Val))
    (hnd : (rows.map Prod.fst).Nodup) :
    (rows.map Prod.fst).map (fun l => (l, cellsOfR rows l)) = rows := by
  induction rows with
  | nil => rfl
  | cons a rs ih =>
      simp only [List.map_cons, List.nodup_cons] at hnd ⊢
      have h1 : cellsOfR (a :: rs) a.1 = a.2 := by simp [cellsOfR_cons]
      have h2 : (rs.map Prod.fst).map (fun l => (l, cellsOfR (a :: rs) l)) =
          (rs.map Prod.fst).map (fun l => (l, cellsOfR rs l)) := by
        apply List.map_congr_left
        intro l hl
        have hne : a.1 ≠ l := fun he => hnd.1 (he ▸ hl)
        simp [cellsOfR_cons, hne]
      rw [h1, h2, ih hnd.2]

/-- Canonical form of `df.loc[sel]` under a duplicate-free index: one row
per requested label, in request order. -/
theorem locRows_canon (df : DF) (sel : List Val)
    (hnd : df.labels.Nodup) (hsub : ∀ l ∈ sel, l ∈ df.labels) :
    df.locRows sel = some ⟨df.iname, df.cols, sel.map (fun l => (l, df.cellsOf l))⟩ := by
  unfold DF.locRows
  rw [if_pos hsub]
  have : sel.flatMap (fun l => df.rows.filter (fun p => decide (p.1 = l))) =
      sel.map (fun l => (l, df.cellsOf l)) := by
    induction sel with
    | nil => rfl
    | cons s ss ih =>
        simp only [List.flatMap_cons, List.map_cons]
        rw [filter_label_singleton df.rows hnd s (hsub s (List.mem_cons_self s ss))]
        rw [ih (fun l hl => hsub l (List.mem_cons_of_mem s hl))]
        rfl
  rw [this]

/-- `df.loc[df.index]` is the identity on duplicate-free frames. -/
theorem locRows_self (df : DF) (hnd : df.labels.Nodup) :
    df.locRows df.labels = some df := by
  rw [locRows_canon df df.labels hnd (fun l hl => hl)]
  have := rows_reconstruct df.rows hnd
  simp only [DF.labels, DF.cellsOf]
  congr 1
  cases df with
  | mk i c r => simpa [DF.labels, DF.cellsOf] using this

theorem flatMap_singleton_eq_map {α β : Type} (l : List α) (f : α → List β)
    (g : α → β) (h : ∀ a ∈ l, f a = [g a]) : l.flatMap f = l.map g := by
  induction l with
  | nil => rfl
  | cons a as ih =>
      simp only [List.flatMap_cons, List.map_cons,
        h a (List.mem_cons_self a as)]
      rw [ih (fun a ha => h a (List.mem_cons_of_mem _ ha))]
      rfl

theorem filter_self_singleton (cols : List Val) (c : Val)
    (hnd : cols.Nodup) (hc : c ∈ cols) :
    cols.filter (fun c' => decide (c' = c)) = [c] := by
  induction cols with
  | nil => simp at hc
  | cons a cs ih =>
      simp only [List.nodup_cons] at hnd
      rcases List.mem_cons.mp hc with h | h
      · rw [List.filter_cons_of_pos (by simp [h])]
        have hnil : cs.filter (fun c' => decide (c' = c)) = [] := by
          apply List.filter_eq_nil_iff.mpr
          intro b hb
          simp only [decide_eq_true_eq]
          intro he
          apply hnd.1
          rw [← h, ← he]
          exact hb
        rw [hnil, h]
      · have hne : a ≠ c := fun he => hnd.1 (he ▸ h)
        rw [List.filter_cons_of_neg (by simp [hne]), ih hnd.2 h]

theorem selCells_nil (cols : List Val) (cells : List Val) (c : Val)
    (hc : c ∉ cols) : selCells cols cells c = [] := by
  induction cols generalizing cells with
  | nil => cases cells <;> rfl
  | cons b bs ih =>
      cases cells with
      | nil => rfl
      | cons w ws =>
          simp only [List.mem_cons, not_or] at hc
          simp only [selCells]
          rw [if_neg (Ne.symm hc.1)]
          exact ih ws hc.2

theorem selCells_nodup (cols cells : List Val) (c : Val)
    (hnd : cols.Nodup) (hc : c ∈ cols) (hlen : cells.length = cols.length) :
    selCells cols cells c = [getValD cols cells c] := by
  induction cols generalizing cells with
  | nil => simp at hc
  | cons a cs ih =>
      cases cells with
      | nil => simp at hlen
      | cons v vs =>
          simp only [List.nodup_cons] at hnd
          simp only [List.length_cons, Nat.succ_inj] at hlen
          by_cases h : a = c
          · subst h
            rw [show selCells (a :: cs) (v :: vs) a = v :: selCells cs vs a from by
                simp [selCells]]
            rw [selCells_nil cs vs a hnd.1]
            simp [getValD]
          · have hmem : c ∈ cs := by
              rcases List.mem_cons.mp hc with h' | h'
              · exact absurd h'.symm h
              · exact h'
            rw [show selCells (a :: cs) (v :: vs) c = selCells cs vs c from by
                simp [selCells, h]]
            rw [show getValD (a :: cs) (v :: vs) c = getValD cs vs c from by
                simp [getValD, h]]
            exact ih vs hnd.2 hmem hlen

theorem getValD_reconstruct (cols cells : List Val)
    (hnd : cols.Nodup) (hlen : cells.length = cols.length) :
    cols.map (fun c => getValD cols cells c) = cells := by
  induction cols generalizing cells with
  | nil => cases cells with | nil => rfl | cons _ _ => simp at hlen
  | cons a cs ih =>
      cases cells with
      | nil => simp at hlen
      | cons v vs =>
          simp only [List.nodup_cons] at hnd
          simp only [List.length_cons, Nat.succ_inj] at hlen
          rw [List.map_cons]
          congr 1
          · simp [getValD]
          · rw [show cs.map (fun c => getValD (a :: cs) (v :: vs) c) =
                cs.map (fun c => getValD cs vs c) from
              List.map_congr_left (fun c hc => by
                have hne : a ≠ c := fun he => hnd.1 (he ▸ hc)
                simp [getValD, hne])]
            exact ih vs hnd.2 hlen

/-- Canonical form of `df[sel]` under duplicate-free columns: one column
per requested name, in request order. -/
theorem selectCols_canon (df : DF) (sel : List Val)
    (hnd : df.cols.Nodup) (hsub : ∀ c ∈ sel, c ∈ df.cols) (hwf : df.WF) :
    df.selectCols sel = some ⟨df.iname, sel,
      df.rows.map (fun p => (p.1, sel.map (fun c => getValD df.cols p.2 c)))⟩ := by
  unfold DF.selectCols
  rw [if_pos hsub]
  congr 2
  · exact flatMap_singleton_eq_map sel _ id
      (fun c hc => filter_self_singleton df.cols c hnd (hsub c hc)) |>.trans (List.map_id sel)
  · apply List.map_congr_left
    intro p hp
    congr 1
    exact flatMap_singleton_eq_map sel _ _
      (fun c hc => selCells_nodup df.cols p.2 c hnd (hsub c hc) (hwf p hp))

/-- `df[df.columns]` is the identity on well-formed duplicate-free frames. -/
theorem selectCols_self (df : DF) (hnd : df.cols.Nodup) (hwf : df.WF) :
    df.selectCols df.cols = some df := by
  rw [selectCols_canon df df.cols hnd (fun c hc => hc) hwf]
  congr 1
  cases df with
  | mk i c r =>
      simp only [DF.mk.injEq, true_and]
      nth_rewrite 2 [show r = r.map id from (List.map_id r).symm]
      apply List.map_congr_left
      intro p hp
      simp only [id]
      rw [getValD_reconstruct c p.2 hnd (hwf p hp)]

theorem zip_range_map {α β : Type} (rows : List α) (f : α → β) :
    (((List.range rows.length).zip rows).map (fun q => f q.2)) = rows.map f := by
  have h : ∀ (ks : List Nat) (l : List α), ks.length = l.length →
      ((ks.zip l).map (fun q => f q.2)) = l.map f := by
    intro ks
    induction ks with
    | nil => intro l hl; cases l with | nil => rfl | cons _ _ => simp at hl
    | cons k ks ih =>
        intro l hl
        cases l with
        | nil => simp at hl
        | cons a as =>
            simp only [List.length_cons, Nat.succ_inj] at hl
            simp only [List.zip_cons_cons, List.map_cons]
            rw [ih as hl]
  exact h (List.range rows.length) rows (List.length_range _)

/-- `reset_index` followed by string coercion of the restored identifier
column and `set_index` on it relabels the frame by `valToStr`. -/
theorem reset_astype_set (df : DF) (s : String) (h : df.iname = s) :
    ((df.resetIndex).astypeStrCol s).setIndex s =
      ⟨s, df.cols, df.rows.map (fun p => (valToStr p.1, p.2))⟩ := by
  subst h
  cases df with
  | mk i cols rows =>
      unfold DF.resetIndex DF.astypeStrCol DF.setIndex
      simp only [List.map_map, DF.mk.injEq]
      refine ⟨trivial, by simp [eraseFirst], ?_⟩
      refine Eq.trans (List.map_congr_left (fun q _ => ?_))
        (zip_range_map rows (fun p : Val × List Val => (valToStr p.1, p.2)))
      simp [mapFirstCol, extractCol]

/-- `reset_index` followed by column string coercion and `set_index` on the
restored identifier column (the data path of `_setup_data` on a frame that
came out of `reset_index`). -/
theorem reset_coerce_set (df : DF) (s : String) (h : df.iname = s)
    (hcols : ∀ c ∈ df.cols, valToStr c = c) :
    DF.setIndex ⟨(df.resetIndex).iname, (df.resetIndex).cols.map valToStr,
      (df.resetIndex).rows⟩ s = df := by
  subst h
  cases df with
  | mk i cols rows =>
      unfold DF.resetIndex DF.setIndex
      simp only [List.map_map]
      have hc : (Val.vstr i :: cols).map valToStr = Val.vstr i :: cols := by
        simp only [List.map_cons, valToStr]
        congr 1
        exact (List.map_congr_left hcols).trans (List.map_id cols)
      simp only at hc
      rw [hc]
      simp only [DF.mk.injEq]
      refine ⟨trivial, by simp [eraseFirst], ?_⟩
      refine Eq.trans (List.map_congr_left (fun q _ => ?_))
        ((zip_range_map rows (fun p : Val × List Val => p)).trans
          (List.map_id rows))
      simp [extractCol]

theorem insVal_perm (a : Val) (l : List Val) : List.Perm (insVal a l) (a :: l) := by
  induction l with
  | nil => exact List.Perm.refl _
  | cons b bs ih =>
      unfold insVal
      by_cases h : valLE a b = true
      · rw [if_pos h]
      · rw [if_neg h]
        exact (List.Perm.cons b ih).trans (List.Perm.swap a b bs)

theorem insSort_perm (l : List Val) : List.Perm (insSort l) l := by
  induction l with
  | nil => exact List.Perm.refl _
  | cons a as ih =>
      exact (insVal_perm a (insSort as)).trans (List.Perm.cons a ih)

theorem mem_insSort (a : Val) (l : List Val) : a ∈ insSort l ↔ a ∈ l :=
  (insSort_perm l).mem_iff

theorem insSort_nodup (l : List Val) (h : l.Nodup) : (insSort l).Nodup :=
  ((insSort_perm l).nodup_iff).mpr h

theorem keepCells_nil_cells (cols : List Val) (ls : List Val) :
    keepCells cols [] ls = [] := by
  cases cols <;> rfl

/-- Dropping the columns of `X ++ Y` in one pass equals dropping `X` and
then dropping `Y` from the already-reduced row. -/
theorem keepCells_append (cols : List Val) (cells : List Val) (X Y : List Val) :
    keepCells cols cells (X ++ Y) =
      keepCells (cols.filter (fun c => decide (c ∉ X))) (keepCells cols cells X) Y := by
  induction cols generalizing cells with
  | nil => cases cells <;> rfl
  | cons c cs ih =>
      cases cells with
      | nil =>
          rw [keepCells_nil_cells, keepCells_nil_cells, keepCells_nil_cells]
      | cons v vs =>
          by_cases hX : c ∈ X
          · have hXY : c ∈ X ++ Y := List.mem_append.mpr (Or.inl hX)
            rw [show keepCells (c :: cs) (v :: vs) (X ++ Y) =
                keepCells cs vs (X ++ Y) from by simp [keepCells, hXY]]
            rw [show keepCells (c :: cs) (v :: vs) X = keepCells cs vs X from by
                simp [keepCells, hX]]
            rw [List.filter_cons_of_neg (by simp [hX])]
            exact ih vs
          · rw [List.filter_cons_of_pos (by simp [hX])]
            rw [show keepCells (c :: cs) (v :: vs) X = v :: keepCells cs vs X from by
                simp [keepCells, hX]]
            by_cases hY : c ∈ Y
            · have hXY : c ∈ X ++ Y := List.mem_append.mpr (Or.inr hY)
              rw [show keepCells (c :: cs) (v :: vs) (X ++ Y) =
                  keepCells cs vs (X ++ Y) from by simp [keepCells, hXY]]
              rw [show keepCells (c :: cs.filter (fun c => decide (c ∉ X)))
                  (v :: keepCells cs vs X) Y =
                  keepCells (cs.filter (fun c => decide (c ∉ X)))
                    (keepCells cs vs X) Y from by simp [keepCells, hY]]
              exact ih vs
            · have hXY : c ∉ X ++ Y := by
                simp only [List.mem_append]
                exact fun h => h.elim hX hY
              rw [show keepCells (c :: cs) (v :: vs) (X ++ Y) =
                  v :: keepCells cs vs (X ++ Y) from by simp [keepCells, hXY]]
              rw [show keepCells (c :: cs.filter (fun c => decide (c ∉ X)))
                  (v :: keepCells cs vs X) Y =
                  v :: keepCells (cs.filter (fun c => decide (c ∉ X)))
                    (keepCells cs vs X) Y from by simp [keepCells, hY]]
              rw [ih vs]

theorem filter_notmem_append (cols : List Val) (X Y : List Val) :
    (cols.filter (fun c => decide (c ∉ X))).filter (fun c => decide (c ∉ Y)) =
      cols.filter (fun c => decide (c ∉ X ++ Y)) := by
  rw [List.filter_filter]
  apply List.filter_congr
  intro c _
  simp only [List.mem_append, decide_not]
  by_cases hX : c ∈ X <;> by_cases hY : c ∈ Y <;> simp [hX, hY]

/-- Looking up a label in a canonically reconstructed row list. -/
theorem cellsOfR_map_self (sel : List Val) (g : Val → List Val) (l : Val)
    (hl : l ∈ sel) :
    cellsOfR (sel.map (fun x => (x, g x))) l = g l := by
  induction sel with
  | nil => simp at hl
  | cons a as ih =>
      rw [List.map_cons, cellsOfR_cons]
      by_cases h : a = l
      · subst h; simp
      · simp only [h, if_false]
        exact ih ((List.mem_cons.mp hl).resolve_left (fun he => h he.symm))

/-- Canonical form of the left merge under a duplicate-free right index:
matched labels get the right row's cells, unmatched labels get NaN
padding. -/
theorem mergeLeft_canon (l r : DF) (hnd : r.labels.Nodup) :
    l.mergeLeft r = ⟨l.iname, l.cols ++ r.cols,
      l.rows.map (fun p => (p.1, p.2 ++
        (if p.1 ∈ r.labels then cellsOfR r.rows p.1
         else List.replicate r.cols.length Val.nan)))⟩ := by
  unfold DF.mergeLeft
  congr 1
  apply flatMap_singleton_eq_map
  intro p _
  by_cases h : p.1 ∈ r.labels
  · rw [filter_label_singleton r.rows hnd p.1 h]
    simp [h]
  · rw [filter_label_nil r.rows p.1 h]
    simp [h]

/-! Claim theorems. -/

/-- Claim C7 (confirmed): for every dataset and every identifier list
containing at least one identifier absent (after string coercion) from the
relevant axis, `drop_samples` and `drop_metabolites` fail as a whole: the
error is raised by the drop itself, before any assignment, so the returned
state is exactly the input state (all three tables unchanged). -/
theorem C7_drop_missing_id_atomic (st : State) (ids : List Val) :
    ((∃ i ∈ ids, valToStr i ∉ st.data.labels) →
      drop_samples st ids = (st, some "KeyError: labels not found in axis")) ∧
    ((∃ i ∈ ids, valToStr i ∉ st.data.cols) →
      drop_metabolites st ids = (st, some "KeyError: labels not found in axis")) := by
  constructor
  · rintro ⟨i, hi, hni⟩
    have h : st.data.dropIndexLs (ids.map valToStr) = none := by
      unfold DF.dropIndexLs
      rw [if_neg]
      intro hall
      exact hni (hall (valToStr i) (List.mem_map_of_mem valToStr hi))
    unfold drop_samples
    rw [h]
  · rintro ⟨i, hi, hni⟩
    have h : st.data.dropColsLs (ids.map valToStr) = none := by
      unfold DF.dropColsLs
      rw [if_neg]
      intro hall
      exact hni (hall (valToStr i) (List.mem_map_of_mem valToStr hi))
    unfold drop_metabolites
    rw [h]

/-- Witness for C7 at a concrete dataset: dropping an absent sample id or
an absent feature id errors and returns the state unchanged. -/
theorem C7_witness :
    drop_samples exSt [strv "S3"] = (exSt, some "KeyError: labels not found in axis") ∧
    drop_metabolites exSt [strv "M3"] = (exSt, some "KeyError: labels not found in axis") :=
  ⟨(C7_drop_missing_id_atomic exSt [strv "S3"]).1 (by decide),
   (C7_drop_missing_id_atomic exSt [strv "M3"]).2 (by decide)⟩

/-- Claim C9, amended (the code checks only the data table in `save` and
only the merged view in `save_merged`): `save` fails exactly when the
abundance data table has zero rows, whatever combination of the three
output paths is requested, and `save_merged` fails exactly when the merged
view has zero rows; the chemical annotation and sample metadata are
written without an emptiness check of their own. -/
theorem C9_save_empty_check (st : State) (dp cp sp : Bool) :
    ((save st dp cp sp).isOk = true ↔ st.data.rows.length ≠ 0) ∧
    ((save_merged st cp).isOk = true ↔ (merge_smd st).rows.length ≠ 0) := by
  constructor
  · unfold save
    by_cases h : st.data.rows.length = 0 <;> simp [h, Except.isOk, Except.toBool]
  · unfold save_merged
    by_cases h : (merge_smd st).rows.length = 0 <;>
      simp [h, Except.isOk, Except.toBool]

/-- Counterexample for C9 as stated: on `exStSave` (chemical annotation
has zero rows, data has one row), saving only the chemical annotation
succeeds and writes the empty table, so a public save operation does not
fail when the table to be written has zero rows. -/
theorem C9_counterexample :
    save exStSave false true false =
      Except.ok [("chem_ann", (⟨"CHEM_ID", [strv "NAME"], []⟩ : DF))] ∧
    (⟨"CHEM_ID", [strv "NAME"], []⟩ : DF).rows.length = 0 := by
  constructor <;> rfl

/-- Claim C3, amended (construction is atomic only for the sample-id
check): if the sample-id column is absent from the data or the sample
metadata, the state is returned unchanged; but if that check passes and
the feature-id column is absent from the chemical annotation, the error is
raised only after the sample metadata, the `samples` list and the data
have already been replaced — only the chemical annotation and the
`metabolites` list keep their prior state. -/
theorem C3_setup_partial_atomicity (st : State) (chem meta data : DF) :
    (¬(Val.vstr st.sid_col ∈ data.cols ∧ Val.vstr st.sid_col ∈ meta.cols) →
      import_tables st data chem meta =
        (st, some ("Error importing data: " ++
          "Error setting up data: No sample ID column found in data"))) ∧
    ((Val.vstr st.sid_col ∈ data.cols ∧ Val.vstr st.sid_col ∈ meta.cols) →
      Val.vstr st.mid_col ∉ chem.cols →
      import_tables st data chem meta =
        ({ st with
            sample_metadata := (meta.astypeStrCol st.sid_col).setIndex st.sid_col,
            samples := ((meta.astypeStrCol st.sid_col).setIndex st.sid_col).labels,
            data := DF.setIndex ⟨data.iname, data.cols.map valToStr, data.rows⟩ st.sid_col },
          some ("Error importing data: " ++
            "Error setting up data: No metabolite ID column found in chemical annotation"))) := by
  constructor
  · intro h
    unfold import_tables setup_data parse_input
    rw [if_neg h]
  · intro h hm
    unfold import_tables setup_data parse_input
    rw [if_pos h, if_neg hm]

/-- Counterexample for C3 as stated: importing with an annotation table
that lacks the CHEM_ID column raises, yet the data and sample-metadata
tables are no longer in their pre-construction empty state, i.e. a
partially built instance is observable. -/
theorem C3_counterexample :
    ((import_tables (State.init "PARENT_SAMPLE_NAME" "CHEM_ID")
        exData exChemBad exMeta).2).isSome = true ∧
    (import_tables (State.init "PARENT_SAMPLE_NAME" "CHEM_ID")
        exData exChemBad exMeta).1.data ≠ DF.empty ∧
    (import_tables (State.init "PARENT_SAMPLE_NAME" "CHEM_ID")
        exData exChemBad exMeta).1.sample_metadata ≠ DF.empty := by
  decide

/-- Witness for C3 at a concrete input: the annotation table of the fresh
instance is untouched by the failed import (while, per the
counterexample, the data table is not). -/
theorem C3_witness :
    (import_tables (State.init "PARENT_SAMPLE_NAME" "CHEM_ID")
        exData exChemBad exMeta).1.chem_ann =
      (State.init "PARENT_SAMPLE_NAME" "CHEM_ID").chem_ann := by
  have h := (C3_setup_partial_atomicity (State.init "PARENT_SAMPLE_NAME" "CHEM_ID")
    exChemBad exMeta exData).2 (by decide) (by decide)
  rw [h]

/-- Claim C4, amended (the sample side fails on identifiers missing from
the *metadata*, not never): `extract_samples` succeeds exactly when every
requested identifier is in the sample-metadata index, and then an
identifier lacking an abundance row yields its metadata cells padded with
NaN across all abundance columns (left-join semantics on the data side
only); `extract_metabolites` succeeds exactly when every requested
(string-coerced) feature identifier is an abundance column — hard failure
otherwise. -/
theorem C4_extract_asymmetry (st : State) (ids : List Val)
    (hndm : st.sample_metadata.labels.Nodup) (hndd : st.data.labels.Nodup) :
    ((extract_samples st ids).isSome = true ↔
      ∀ i ∈ ids, i ∈ st.sample_metadata.labels) ∧
    ((∀ i ∈ ids, i ∈ st.sample_metadata.labels) →
      extract_samples st ids = some ⟨st.sample_metadata.iname,
        st.sample_metadata.cols ++ st.data.cols,
        ids.map (fun l => (l, st.sample_metadata.cellsOf l ++
          (if l ∈ st.data.labels then st.data.cellsOf l
           else List.replicate st.data.cols.length Val.nan)))⟩) ∧
    (∀ fids : List Val,
      (extract_metabolites st fids).isSome = true ↔
        ∀ i ∈ fids, valToStr i ∈ st.data.cols) := by
  refine ⟨?_, ?_, ?_⟩
  · unfold extract_samples DF.locRows
    by_cases h : ∀ i ∈ ids, i ∈ st.sample_metadata.labels <;> simp [h]
  · intro h
    unfold extract_samples
    rw [locRows_canon st.sample_metadata ids hndm h]
    rw [Option.map_some']
    congr 1
    rw [mergeLeft_canon _ st.data hndd]
    simp only [List.map_map]
    rfl
  · intro fids
    unfold extract_metabolites DF.selectCols
    by_cases h : ∀ c ∈ fids.map valToStr, c ∈ st.data.cols
    · simp only [if_pos h, Option.map_some', Option.isSome_some, true_iff]
      intro i hi
      exact h (valToStr i) (List.mem_map_of_mem valToStr hi)
    · simp only [if_neg h, Option.map_none', Option.isSome_none,
        Bool.false_eq_true, false_iff]
      intro hall
      apply h
      intro c hc
      rcases List.mem_map.mp hc with ⟨i, hi, rfl⟩
      exact hall i hi

/-- Counterexample for C4 as stated: S3 is absent from the whole dataset,
yet `extract_samples` fails (KeyError from `.loc`) instead of producing a
row of missing values. -/
theorem C4_counterexample :
    extract_samples exSt [strv "S3"] = none ∧
    strv "S3" ∉ exSt.sample_metadata.labels ∧
    strv "S3" ∉ exSt.data.labels := by
  decide

/-- Witness for C4 at a concrete dataset: S2 is in the metadata but has no
abundance row, and its extracted row is padded with NaN; the absent
feature M9 makes `extract_metabolites` fail. -/
theorem C4_witness :
    extract_samples exStPad [strv "S2"] =
      some ⟨"PSN", [strv "c", strv "M1"], [(strv "S2", [strv "B", Val.nan])]⟩ ∧
    (extract_metabolites exStPad [strv "M9"]).isSome ≠ true := by
  constructor
  · have h := (C4_extract_asymmetry exStPad [strv "S2"] (by decide) (by decide)).2.1
      (by decide)
    rw [h]
    rfl
  · have h := ((C4_extract_asymmetry exStPad [strv "M9"] (by decide) (by decide)).2.2
      [strv "M9"])
    intro hcontra
    have := h.mp hcontra
    exact absurd (this (strv "M9") (by decide)) (by decide)

/-- Witness for C9 at a concrete dataset: saving with a nonempty data
table succeeds. -/
theorem C9_witness : (save exStSave true true true).isOk = true :=
  ((C9_save_empty_check exStSave true true true).1).mpr (by decide)

/-- Canonical result of `drop_metabolites` (inplace) when every coerced
identifier is a data column, every data column is annotated, and the
annotation index is duplicate-free: the named columns disappear from the
data and the annotation is re-synced to exactly the surviving columns. -/
theorem drop_metabolites_canon (st : State) (ids : List Val)
    (hin : ∀ c ∈ ids.map valToStr, c ∈ st.data.cols)
    (hsub : ∀ c ∈ st.data.cols, c ∈ st.chem_ann.labels)
    (hnda : st.chem_ann.labels.Nodup) :
    drop_metabolites st ids =
      ({ st with
          data := ⟨st.data.iname,
            st.data.cols.filter (fun c => decide (c ∉ ids.map valToStr)),
            st.data.rows.map (fun p =>
              (p.1, keepCells st.data.cols p.2 (ids.map valToStr)))⟩,
          chem_ann := ⟨st.chem_ann.iname, st.chem_ann.cols,
            (st.data.cols.filter (fun c => decide (c ∉ ids.map valToStr))).map
              (fun l => (l, st.chem_ann.cellsOf l))⟩,
          metabolites :=
            st.data.cols.filter (fun c => decide (c ∉ ids.map valToStr)) },
        none) := by
  have h1 : st.data.dropColsLs (ids.map valToStr) =
      some ⟨st.data.iname,
        st.data.cols.filter (fun c => decide (c ∉ ids.map valToStr)),
        st.data.rows.map (fun p =>
          (p.1, keepCells st.data.cols p.2 (ids.map valToStr)))⟩ := by
    unfold DF.dropColsLs
    rw [if_pos hin]
  unfold drop_metabolites
  rw [h1]
  unfold update_chem_ann
  dsimp only
  rw [locRows_canon st.chem_ann
    (st.data.cols.filter (fun c => decide (c ∉ ids.map valToStr))) hnda
    (fun c hc => hsub c (List.mem_of_mem_filter hc))]
  dsimp only
  congr 1
  rw [DF.labels]
  dsimp only
  rw [List.map_map]
  have hmf : (st.data.cols.filter (fun c => decide (c ∉ ids.map valToStr))).map
      (Prod.fst ∘ fun l => (l, st.chem_ann.cellsOf l)) =
      st.data.cols.filter (fun c => decide (c ∉ ids.map valToStr)) :=
    (List.map_congr_left (fun l _ => rfl)).trans (List.map_id _)
  rw [hmf]

/-- Claim C6 (confirmed): on disjoint identifier sets X and Y that are
both contained in the current feature axis (with the standing dataset
well-formedness: duplicate-free annotated columns), dropping X and then Y
in place gives exactly the same dataset state — data, chemical annotation
and metabolite list — as dropping X ∪ Y in one call, and both runs raise
no error. -/
theorem C6_dropFeatures_commute (st : State) (X Y : List Val)
    (hX : ∀ i ∈ X, valToStr i ∈ st.data.cols)
    (hY : ∀ i ∈ Y, valToStr i ∈ st.data.cols)
    (hdisj : ∀ i ∈ Y, valToStr i ∉ X.map valToStr)
    (hsub : ∀ c ∈ st.data.cols, c ∈ st.chem_ann.labels)
    (hndc : st.data.cols.Nodup)
    (hnda : st.chem_ann.labels.Nodup) :
    (drop_metabolites st X).2 = none ∧
    (drop_metabolites (drop_metabolites st X).1 Y).2 = none ∧
    drop_metabolites (drop_metabolites st X).1 Y =
      drop_metabolites st (X ++ Y) := by
  have hX' : ∀ c ∈ X.map valToStr, c ∈ st.data.cols := by
    intro c hc
    rcases List.mem_map.mp hc with ⟨i, hi, rfl⟩
    exact hX i hi
  have hXY' : ∀ c ∈ (X ++ Y).map valToStr, c ∈ st.data.cols := by
    intro c hc
    rw [List.map_append] at hc
    rcases List.mem_append.mp hc with h | h
    · exact hX' c h
    · rcases List.mem_map.mp h with ⟨i, hi, rfl⟩
      exact hY i hi
  have hmapfst : ((st.data.cols.filter (fun c => decide (c ∉ X.map valToStr))).map
      (fun l => (l, st.chem_ann.cellsOf l))).map Prod.fst =
      st.data.cols.filter (fun c => decide (c ∉ X.map valToStr)) := by
    rw [List.map_map]
    exact (List.map_congr_left (fun l _ => rfl)).trans (List.map_id _)
  have e1 := drop_metabolites_canon st X hX' hsub hnda
  have hY2 : ∀ c ∈ Y.map valToStr,
      c ∈ st.data.cols.filter (fun c => decide (c ∉ X.map valToStr)) := by
    intro c hc
    rcases List.mem_map.mp hc with ⟨i, hi, rfl⟩
    exact List.mem_filter.mpr ⟨hY i hi, by simpa using hdisj i hi⟩
  have hsub2 : ∀ c ∈ st.data.cols.filter (fun c => decide (c ∉ X.map valToStr)),
      c ∈ ((st.data.cols.filter (fun c => decide (c ∉ X.map valToStr))).map
        (fun l => (l, st.chem_ann.cellsOf l))).map Prod.fst := by
    intro c hc
    rw [hmapfst]
    exact hc
  have hnda2 : (((st.data.cols.filter (fun c => decide (c ∉ X.map valToStr))).map
      (fun l => (l, st.chem_ann.cellsOf l))).map Prod.fst).Nodup := by
    rw [hmapfst]
    exact hndc.filter _
  have e2 := drop_metabolites_canon
    { st with
        data := ⟨st.data.iname,
          st.data.cols.filter (fun c => decide (c ∉ X.map valToStr)),
          st.data.rows.map (fun p =>
            (p.1, keepCells st.data.cols p.2 (X.map valToStr)))⟩,
        chem_ann := ⟨st.chem_ann.iname, st.chem_ann.cols,
          (st.data.cols.filter (fun c => decide (c ∉ X.map valToStr))).map
            (fun l => (l, st.chem_ann.cellsOf l))⟩,
        metabolites :=
          st.data.cols.filter (fun c => decide (c ∉ X.map valToStr)) }
    Y hY2 hsub2 hnda2
  have e3 := drop_metabolites_canon st (X ++ Y) hXY' hsub hnda
  dsimp only [DF.cellsOf] at e1 e2 e3
  refine ⟨by rw [e1], ?_, ?_⟩
  · rw [e1]
    dsimp only
    rw [e2]
  · rw [e1]
    dsimp only
    rw [e2, e3]
    rw [List.map_append]
    have hmapchem : ((st.data.cols.filter
          (fun c => decide (c ∉ X.map valToStr))).filter
          (fun c => decide (c ∉ Y.map valToStr))).map
          (fun l => (l, cellsOfR ((st.data.cols.filter
            (fun c => decide (c ∉ X.map valToStr))).map
            (fun l => (l, cellsOfR st.chem_ann.rows l))) l)) =
        ((st.data.cols.filter (fun c => decide (c ∉ X.map valToStr))).filter
          (fun c => decide (c ∉ Y.map valToStr))).map
          (fun l => (l, cellsOfR st.chem_ann.rows l)) := by
      apply List.map_congr_left
      intro c hc
      rw [cellsOfR_map_self _ _ c (List.mem_of_mem_filter hc)]
    rw [hmapchem]
    rw [filter_notmem_append st.data.cols (X.map valToStr) (Y.map valToStr)]
    have hrows : (st.data.rows.map (fun p =>
        (p.1, keepCells st.data.cols p.2 (X.map valToStr)))).map (fun p =>
        (p.1, keepCells (st.data.cols.filter
          (fun c => decide (c ∉ X.map valToStr))) p.2 (Y.map valToStr))) =
        st.data.rows.map (fun p =>
          (p.1, keepCells st.data.cols p.2 (X.map valToStr ++ Y.map valToStr))) := by
      rw [List.map_map]
      apply List.map_congr_left
      intro p _
      simp only [Function.comp]
      rw [keepCells_append]
    rw [hrows]

/-- Witness for C6 at a concrete dataset: dropping M1 then M2 equals
dropping both at once. -/
theorem C6_witness :
    drop_metabolites (drop_metabolites exSt [strv "M1"]).1 [strv "M2"] =
      drop_metabolites exSt [strv "M1", strv "M2"] :=
  (C6_dropFeatures_commute exSt [strv "M1"] [strv "M2"] (by decide) (by decide)
    (by decide) (by decide) (by decide) (by decide)).2.2

theorem getValD_nil_cells (cols : List Val) (c : Val) :
    getValD cols [] c = Val.nan := by
  cases cols <;> rfl

/-- Looking up a surviving column after a column drop sees the original
cell. -/
theorem getValD_keepCells (cols : List Val) (cells ls : List Val) (c : Val)
    (hc : c ∉ ls) :
    getValD (cols.filter (fun x => decide (x ∉ ls))) (keepCells cols cells ls) c =
      getValD cols cells c := by
  induction cols generalizing cells with
  | nil => cases cells <;> rfl
  | cons a cs ih =>
      cases cells with
      | nil => rw [keepCells_nil_cells, getValD_nil_cells, getValD_nil_cells]
      | cons v vs =>
          by_cases ha : a ∈ ls
          · rw [List.filter_cons_of_neg (by simp [ha])]
            rw [show keepCells (a :: cs) (v :: vs) ls = keepCells cs vs ls from by
              simp [keepCells, ha]]
            rw [show getValD (a :: cs) (v :: vs) c = getValD cs vs c from by
              have hne : a ≠ c := fun he => hc (he ▸ ha)
              simp [getValD, hne]]
            exact ih vs
          · rw [List.filter_cons_of_pos (by simp [ha])]
            by_cases hac : a = c
            · subst hac
              rw [show keepCells (a :: cs) (v :: vs) ls = v :: keepCells cs vs ls
                  from by simp [keepCells, ha]]
              simp [getValD]
            · rw [show keepCells (a :: cs) (v :: vs) ls = v :: keepCells cs vs ls
                  from by simp [keepCells, ha]]
              rw [show getValD (a :: cs.filter (fun x => decide (x ∉ ls)))
                  (v :: keepCells cs vs ls) c =
                  getValD (cs.filter (fun x => decide (x ∉ ls)))
                    (keepCells cs vs ls) c from by simp [getValD, hac]]
              rw [show getValD (a :: cs) (v :: vs) c = getValD cs vs c from by
                simp [getValD, hac]]
              exact ih vs

/-- With a duplicate-free index, the cells looked up for a row's own label
are that row's cells. -/
theorem cellsOfR_self (rows : List (Val × List Val))
    (hnd : (rows.map Prod.fst).Nodup) (p : Val × List Val) (hp : p ∈ rows) :
    cellsOfR rows p.1 = p.2 := by
  induction rows with
  | nil => simp at hp
  | cons a rs ih =>
      simp only [List.map_cons, List.nodup_cons] at hnd
      rcases List.mem_cons.mp hp with h | h
      · subst h
        simp [cellsOfR_cons]
      · have hne : a.1 ≠ p.1 :=
          fun he => hnd.1 (he ▸ List.mem_map_of_mem Prod.fst h)
        rw [cellsOfR_cons, if_neg hne]
        exact ih hnd.2 h

/-- Selecting, by label, the rows whose label survives a Boolean test is
the same as filtering the rows (duplicate-free index). -/
theorem map_cells_filter (rows : List (Val × List Val)) (q : Val → Bool)
    (hnd : (rows.map Prod.fst).Nodup) :
    ((rows.map Prod.fst).filter q).map (fun l => (l, cellsOfR rows l)) =
      rows.filter (fun p => q p.1) := by
  induction rows with
  | nil => rfl
  | cons a rs ih =>
      simp only [List.map_cons, List.nodup_cons] at hnd
      have htail : ((rs.map Prod.fst).filter q).map
          (fun l => (l, cellsOfR (a :: rs) l)) =
          ((rs.map Prod.fst).filter q).map (fun l => (l, cellsOfR rs l)) :=
        List.map_congr_left (fun l hl => by
          have hlm : l ∈ rs.map Prod.fst := List.mem_of_mem_filter hl
          have hne : a.1 ≠ l := fun he => hnd.1 (he ▸ hlm)
          simp [cellsOfR_cons, hne])
      by_cases hq : q a.1 = true
      · have h1 : List.filter q (a.1 :: rs.map Prod.fst) =
            a.1 :: List.filter q (rs.map Prod.fst) :=
          List.filter_cons_of_pos hq
        have h2 : List.filter (fun p : Val × List Val => q p.1) (a :: rs) =
            a :: List.filter (fun p : Val × List Val => q p.1) rs :=
          List.filter_cons_of_pos hq
        rw [List.map_cons, h1, h2, List.map_cons]
        rw [show cellsOfR (a :: rs) a.1 = a.2 from by simp [cellsOfR_cons]]
        rw [htail, ih hnd.2]
      · have h1 : List.filter q (a.1 :: rs.map Prod.fst) =
            List.filter q (rs.map Prod.fst) :=
          List.filter_cons_of_neg (by simpa using hq)
        have h2 : List.filter (fun p : Val × List Val => q p.1) (a :: rs) =
            List.filter (fun p : Val × List Val => q p.1) rs :=
          List.filter_cons_of_neg (by simpa using hq)
        rw [List.map_cons, h1, h2, htail, ih hnd.2]

/-- A label of a duplicate-free row list is among the labels of the
`P`-filtered rows exactly when its own row passes `P`. -/
theorem label_mem_filter_map (rows : List (Val × List Val))
    (P : Val × List Val → Bool) (hnd : (rows.map Prod.fst).Nodup)
    (l : Val) (hl : l ∈ rows.map Prod.fst) :
    (l ∈ (rows.filter P).map Prod.fst) ↔ P (l, cellsOfR rows l) = true := by
  induction rows with
  | nil => simp at hl
  | cons a rs ih =>
      simp only [List.map_cons, List.nodup_cons] at hnd
      rcases List.mem_cons.mp hl with h | h
      · subst h
        rw [show cellsOfR (a :: rs) a.1 = a.2 from by simp [cellsOfR_cons]]
        by_cases hP : P a = true
        · rw [List.filter_cons_of_pos hP, List.map_cons]
          simp only [List.mem_cons, true_or, true_iff]
          exact hP
        · rw [List.filter_cons_of_neg (by simpa using hP)]
          constructor
          · intro hmem
            rcases List.mem_map.mp hmem with ⟨p, hp, hpe⟩
            exact absurd (hpe ▸ List.mem_map_of_mem Prod.fst
              (List.mem_of_mem_filter hp)) hnd.1
          · intro hPa
            exact absurd hPa hP
      · have hne : a.1 ≠ l := fun he => hnd.1 (he ▸ h)
        rw [cellsOfR_cons, if_neg hne]
        by_cases hP : P a = true
        · rw [List.filter_cons_of_pos hP, List.map_cons]
          rw [List.mem_cons]
          constructor
          · intro hor
            rcases hor with he | hmem
            · exact absurd he.symm hne
            · exact (ih hnd.2 h).mp hmem
          · intro hPl
            exact Or.inr ((ih hnd.2 h).mpr hPl)
        · rw [List.filter_cons_of_neg (by simpa using hP)]
          exact ih hnd.2 h

/-- Claim C10 (confirmed): on a well-formed dataset whose annotation has a
`SUPER_PATHWAY` column, `drop_xenobiotic_metabolites` succeeds and removes
exactly the features whose pathway cell is a string lowercasing to
"xenobiotics"; a feature with a missing (NaN) pathway is never removed;
the annotation rows of kept features, their data columns' values, and the
sample metadata (with the `samples` list) are unchanged. -/
theorem C10_drop_xenobiotics (st : State)
    (hcol : Val.vstr "SUPER_PATHWAY" ∈ st.chem_ann.cols)
    (hinv : st.data.cols = st.chem_ann.labels)
    (hnda : st.chem_ann.labels.Nodup)
    (hstr : ∀ l ∈ st.chem_ann.labels, valToStr l = l) :
    (drop_xenobiotic_metabolites st).2 = none ∧
    (drop_xenobiotic_metabolites st).1.chem_ann.rows =
      st.chem_ann.rows.filter (fun p =>
        !isXeno (getValD st.chem_ann.cols p.2 (Val.vstr "SUPER_PATHWAY"))) ∧
    (drop_xenobiotic_metabolites st).1.data.cols =
      st.data.cols.filter (fun c => decide (c ∉ xenoIds st)) ∧
    (drop_xenobiotic_metabolites st).1.sample_metadata = st.sample_metadata ∧
    (drop_xenobiotic_metabolites st).1.samples = st.samples ∧
    (∀ p ∈ st.chem_ann.rows,
      getValD st.chem_ann.cols p.2 (Val.vstr "SUPER_PATHWAY") = Val.nan →
      p.1 ∈ (drop_xenobiotic_metabolites st).1.chem_ann.labels) ∧
    (∀ c ∈ st.data.cols, c ∉ xenoIds st →
      (drop_xenobiotic_metabolites st).1.data.colVals c = st.data.colVals c) := by
  have hxsub : ∀ c ∈ xenoIds st, c ∈ st.chem_ann.labels := by
    intro c hc
    rcases List.mem_map.mp hc with ⟨p, hp, rfl⟩
    exact List.mem_map_of_mem Prod.fst (List.mem_of_mem_filter hp)
  have hxmap : (xenoIds st).map valToStr = xenoIds st :=
    (List.map_congr_left (fun c hc => hstr c (hxsub c hc))).trans
      (List.map_id _)
  have hin : ∀ c ∈ (xenoIds st).map valToStr, c ∈ st.data.cols := by
    rw [hxmap, hinv]
    exact hxsub
  have hsub : ∀ c ∈ st.data.cols, c ∈ st.chem_ann.labels := fun c hc =>
    hinv ▸ hc
  have e := drop_metabolites_canon st (xenoIds st) hin hsub hnda
  rw [hxmap] at e
  have hdx : drop_xenobiotic_metabolites st = drop_metabolites st (xenoIds st) := by
    unfold drop_xenobiotic_metabolites
    rw [if_pos hcol]
  rw [hdx, e]
  dsimp only [DF.cellsOf]
  have hchem : (st.data.cols.filter (fun c => decide (c ∉ xenoIds st))).map
      (fun l => (l, cellsOfR st.chem_ann.rows l)) =
      st.chem_ann.rows.filter (fun p =>
        !isXeno (getValD st.chem_ann.cols p.2 (Val.vstr "SUPER_PATHWAY"))) := by
    rw [hinv, DF.labels]
    rw [show (st.chem_ann.rows.map Prod.fst).filter
          (fun c => decide (c ∉ xenoIds st)) =
        (st.chem_ann.rows.map Prod.fst).filter (fun l =>
          !isXeno (getValD st.chem_ann.cols (cellsOfR st.chem_ann.rows l)
            (Val.vstr "SUPER_PATHWAY"))) from
      List.filter_congr (fun l hl => by
        have hiff := label_mem_filter_map st.chem_ann.rows
          (fun p => isXeno (getValD st.chem_ann.cols p.2
            (Val.vstr "SUPER_PATHWAY"))) hnda l hl
        have hxeq : (l ∈ xenoIds st) ↔ isXeno (getValD st.chem_ann.cols
            (cellsOfR st.chem_ann.rows l) (Val.vstr "SUPER_PATHWAY")) = true := hiff
        by_cases hx : isXeno (getValD st.chem_ann.cols
            (cellsOfR st.chem_ann.rows l) (Val.vstr "SUPER_PATHWAY")) = true
        · have hm : l ∈ xenoIds st := hxeq.mpr hx
          simp [hm, hx]
        · have hm : l ∉ xenoIds st := fun hmem => hx (hxeq.mp hmem)
          simp [hm, Bool.not_eq_true] at hx ⊢
          simp [hx])]
    rw [map_cells_filter st.chem_ann.rows _ hnda]
    apply List.filter_congr
    intro p hp
    rw [cellsOfR_self st.chem_ann.rows hnda p hp]
  refine ⟨rfl, hchem, rfl, rfl, rfl, ?_, ?_⟩
  · intro p hp hnan
    rw [DF.labels]
    dsimp only
    rw [hchem]
    apply List.mem_map_of_mem Prod.fst
    apply List.mem_filter.mpr
    refine ⟨hp, ?_⟩
    rw [hnan]
    rfl
  · intro c hc hcx
    rw [DF.colVals, DF.colVals]
    dsimp only
    rw [List.map_map]
    apply List.map_congr_left
    intro p _
    simp only [Function.comp]
    exact getValD_keepCells st.data.cols p.2 (xenoIds st) c hcx

/-- Witness for C10 at a concrete dataset: M1 (pathway "Xenobiotics") is
dropped, M2 (missing pathway) is kept with its annotation row intact. -/
theorem C10_witness :
    (drop_xenobiotic_metabolites exSt).2 = none ∧
    (drop_xenobiotic_metabolites exSt).1.chem_ann.rows =
      exSt.chem_ann.rows.filter (fun p =>
        !isXeno (getValD exSt.chem_ann.cols p.2 (Val.vstr "SUPER_PATHWAY"))) :=
  ⟨(C10_drop_xenobiotics exSt (by decide) (by decide) (by decide) (by decide)).1,
   (C10_drop_xenobiotics exSt (by decide) (by decide) (by decide) (by decide)).2.1⟩

theorem mem_setCells (cols cells : List Val) (d w : Val) :
    ∀ v ∈ setCells cols cells d w, v = w ∨ v ∈ cells := by
  induction cols generalizing cells with
  | nil => intro v hv; right; exact hv
  | cons c cs ih =>
      intro v hv
      cases cells with
      | nil => right; exact hv
      | cons x xs =>
          rw [show setCells (c :: cs) (x :: xs) d w =
              (if c = d then w else x) :: setCells cs xs d w from rfl] at hv
          rcases List.mem_cons.mp hv with h | h
          · by_cases hc : c = d
            · left; rw [h, if_pos hc]
            · right; rw [h, if_neg hc]; exact List.mem_cons_self x xs
          · rcases ih xs v h with h' | h'
            · left; exact h'
            · right; exact List.mem_cons_of_mem x h'

theorem lookupD_eq_nan (s : List (Val × Val)) (l : Val)
    (h : ∀ q ∈ s, q.1 ≠ l) : lookupD s l = Val.nan := by
  unfold lookupD
  rw [List.find?_eq_none.mpr (fun q hq => by simpa using h q hq)]
  rfl

theorem getValD_mem_or (cols cells : List Val) (c : Val) :
    getValD cols cells c = Val.nan ∨ getValD cols cells c ∈ cells := by
  induction cols generalizing cells with
  | nil => left; exact getValD_nil_cells [] c
  | cons a cs ih =>
      cases cells with
      | nil => left; exact getValD_nil_cells (a :: cs) c
      | cons v vs =>
          by_cases hac : a = c
          · right
            rw [show getValD (a :: cs) (v :: vs) c = v from by simp [getValD, hac]]
            exact List.mem_cons_self v vs
          · rw [show getValD (a :: cs) (v :: vs) c = getValD cs vs c from by
              simp [getValD, hac]]
            rcases ih vs with h | h
            · left; exact h
            · right; exact List.mem_cons_of_mem v h

/-- The rows of the residual matrix that fall outside the merged view stay
all-NaN under one aligned column assignment whose series index lies inside
the merged view. -/
theorem assignCol_preserves_nan (res : DF) (c : Val) (s : List (Val × Val))
    (mergedLabels : List Val)
    (hs : ∀ q ∈ s, q.1 ∈ mergedLabels)
    (h : ∀ p ∈ res.rows, p.1 ∉ mergedLabels → ∀ v ∈ p.2, v = Val.nan) :
    ∀ p ∈ (res.assignCol c s).rows, p.1 ∉ mergedLabels →
      ∀ v ∈ p.2, v = Val.nan := by
  intro p hp hpl v hv
  unfold DF.assignCol at hp
  by_cases hc : c ∈ res.cols
  · rw [if_pos hc] at hp
    dsimp only at hp
    rcases List.mem_map.mp hp with ⟨p0, hp0, rfl⟩
    dsimp only at hpl hv
    have hnan : lookupD s p0.1 = Val.nan :=
      lookupD_eq_nan s p0.1 (fun q hq he => hpl (he ▸ hs q hq))
    rcases mem_setCells res.cols p0.2 c (lookupD s p0.1) v hv with h' | h'
    · rw [h', hnan]
    · exact h p0 hp0 hpl v h'
  · rw [if_neg hc] at hp
    dsimp only at hp
    rcases List.mem_map.mp hp with ⟨p0, hp0, rfl⟩
    dsimp only at hpl hv
    rcases List.mem_append.mp hv with h' | h'
    · exact h p0 hp0 hpl v h'
    · have hnan : lookupD s p0.1 = Val.nan :=
        lookupD_eq_nan s p0.1 (fun q hq he => hpl (he ▸ hs q hq))
      rcases List.mem_singleton.mp h' with rfl
      exact hnan

/-- Claim C8 (confirmed): the residual matrix starts as an all-NaN copy of
the abundance matrix (same index name, same columns, same row labels), and
after fitting every feature — the residual series of each fit being
indexed inside the merged view, as statsmodels residuals are — any sample
excluded from the merged view still reads NaN in every column, in
particular in each fitted feature's column. -/
theorem C8_residual_matrix (st : State) (fit : Val → List (Val × Val))
    (hfit : ∀ m, ∀ q ∈ fit m, q.1 ∈ (effects_merged st).labels) :
    (effects_residuals0 st).iname = st.data.iname ∧
    (effects_residuals0 st).cols = st.data.cols ∧
    (effects_residuals0 st).labels = st.data.labels ∧
    (∀ p ∈ (effects_residuals0 st).rows, ∀ v ∈ p.2, v = Val.nan) ∧
    (∀ l, l ∈ st.data.labels → l ∉ (effects_merged st).labels →
      ∀ c, getValD (get_all_residuals st fit).cols
        (cellsOfR (get_all_residuals st fit).rows l) c = Val.nan) := by
  refine ⟨rfl, rfl, ?_, ?_, ?_⟩
  · unfold effects_residuals0 DF.labels
    dsimp only
    rw [List.map_map]
    rfl
  · intro p hp v hv
    unfold effects_residuals0 at hp
    dsimp only at hp
    rcases List.mem_map.mp hp with ⟨p0, _, rfl⟩
    dsimp only at hv
    rcases List.mem_map.mp hv with ⟨_, _, rfl⟩
    rfl
  · intro l _ hl c
    have hinv : ∀ p ∈ (get_all_residuals st fit).rows,
        p.1 ∉ (effects_merged st).labels → ∀ v ∈ p.2, v = Val.nan := by
      unfold get_all_residuals
      have base : ∀ p ∈ (effects_residuals0 st).rows,
          p.1 ∉ (effects_merged st).labels → ∀ v ∈ p.2, v = Val.nan := by
        intro p hp _ v hv
        unfold effects_residuals0 at hp
        dsimp only at hp
        rcases List.mem_map.mp hp with ⟨p0, _, rfl⟩
        dsimp only at hv
        rcases List.mem_map.mp hv with ⟨_, _, rfl⟩
        rfl
      generalize (effects_residuals0 st) = res at base
      induction st.metabolites generalizing res with
      | nil => exact base
      | cons m ms ih =>
          rw [List.foldl_cons]
          exact ih _ (assignCol_preserves_nan res m (fit m) _ (hfit m) base)
    cases hfind : (get_all_residuals st fit).rows.find?
        (fun p => decide (p.1 = l)) with
    | none =>
        rw [show cellsOfR (get_all_residuals st fit).rows l = [] from by
          unfold cellsOfR
          rw [hfind]
          rfl]
        exact getValD_nil_cells _ c
    | some p =>
        have hp : p ∈ (get_all_residuals st fit).rows :=
          List.mem_of_find?_eq_some hfind
        have hpl : p.1 = l := by
          have := List.find?_some hfind
          simpa using this
        have hcells : cellsOfR (get_all_residuals st fit).rows l = p.2 := by
          unfold cellsOfR
          rw [hfind]
          rfl
        rw [hcells]
        rcases getValD_mem_or (get_all_residuals st fit).cols p.2 c with h | h
        · exact h
        · exact hinv p hp (by rw [hpl]; exact hl) _ h

/-- Witness for C8: in `exStX` the sample S4 has abundance data but no
metadata, so it is excluded from the merged view and keeps NaN in every
residual column after running the pipeline (with an empty-series fit). -/
theorem C8_witness :
    getValD (get_all_residuals exStX (fun _ => [])).cols
      (cellsOfR (get_all_residuals exStX (fun _ => [])).rows (strv "S4"))
      (strv "M1") = Val.nan :=
  (C8_residual_matrix exStX (fun _ => [])
    (fun _ q hq => absurd hq (List.not_mem_nil q))).2.2.2.2
    (strv "S4") (by decide) (by decide) (strv "M1")

theorem extractCol_fst (cols cells : List Val) (d : Val) :
    (extractCol cols cells d).1 = getValD cols cells d := by
  induction cols generalizing cells with
  | nil => cases cells <;> rfl
  | cons c cs ih =>
      cases cells with
      | nil => rfl
      | cons v vs =>
          by_cases h : c = d
          · simp [extractCol, getValD, h]
          · simp only [extractCol, getValD, if_neg h]
            exact ih vs

theorem lookupD_zip_self (ps : List (Val × Val))
    (hnd : (ps.map Prod.fst).Nodup) :
    (ps.map Prod.fst).map (lookupD ps) = ps.map Prod.snd := by
  induction ps with
  | nil => rfl
  | cons a rest ih =>
      simp only [List.map_cons, List.nodup_cons] at hnd ⊢
      rw [show lookupD (a :: rest) a.1 = a.2 from by
        unfold lookupD
        rw [show List.find? (fun q => decide (q.1 = a.1)) (a :: rest) = some a
            from by
          rw [List.find?_cons]
          simp]
        rfl]
      rw [show (rest.map Prod.fst).map (lookupD (a :: rest)) =
          (rest.map Prod.fst).map (lookupD rest) from
        List.map_congr_left (fun l hl => by
          have hne : a.1 ≠ l := fun he => hnd.1 (he ▸ hl)
          unfold lookupD
          rw [show List.find? (fun q => decide (q.1 = l)) (a :: rest) =
              List.find? (fun q => decide (q.1 = l)) rest from by
            rw [List.find?_cons]
            simp [hne]])]
      rw [ih hnd.2]

/-- Looking up a column other than `e` after `set_index(e)` removed `e`'s
column sees the original cell. -/
theorem getValD_eraseFirst (cols cells : List Val) (e d : Val) (hne : d ≠ e) :
    getValD (eraseFirst cols e) (extractCol cols cells e).2 d =
      getValD cols cells d := by
  induction cols generalizing cells with
  | nil => cases cells <;> rfl
  | cons c cs ih =>
      cases cells with
      | nil =>
          rw [getValD_nil_cells]
          rw [show (extractCol (c :: cs) [] e).2 = ([] : List Val) from rfl]
          exact (getValD_nil_cells _ d)
      | cons v vs =>
          by_cases hc : c = e
          · rw [show eraseFirst (c :: cs) e = cs from by simp [eraseFirst, hc]]
            rw [show (extractCol (c :: cs) (v :: vs) e).2 = vs from by
              simp [extractCol, hc]]
            rw [show getValD (c :: cs) (v :: vs) d = getValD cs vs d from by
              have : c ≠ d := fun he => hne (he ▸ hc ▸ rfl)
              simp [getValD, this]]
          · rw [show eraseFirst (c :: cs) e = c :: eraseFirst cs e from by
              simp [eraseFirst, hc]]
            rw [show (extractCol (c :: cs) (v :: vs) e).2 =
                v :: (extractCol cs vs e).2 from by simp [extractCol, hc]]
            by_cases hcd : c = d
            · simp [getValD, hcd]
            · rw [show getValD (c :: eraseFirst cs e) (v :: (extractCol cs vs e).2) d =
                  getValD (eraseFirst cs e) (extractCol cs vs e).2 d from by
                simp [getValD, hcd]]
              rw [show getValD (c :: cs) (v :: vs) d = getValD cs vs d from by
                simp [getValD, hcd]]
              exact ih vs

/-- `reset_index().set_index(s)` for a column `s` different from the index
name: the old index is retained as the leading column and the first column
named `s` becomes the index. -/
theorem reset_set_ne (df : DF) (s : String) (h : s ≠ df.iname) :
    (df.resetIndex).setIndex s =
      ⟨s, Val.vstr df.iname :: eraseFirst df.cols (Val.vstr s),
        df.rows.map (fun p => ((extractCol df.cols p.2 (Val.vstr s)).1,
          p.1 :: (extractCol df.cols p.2 (Val.vstr s)).2))⟩ := by
  cases df with
  | mk i cols rows =>
      have hne2 : Val.vstr i ≠ Val.vstr s := by
        simp only [ne_eq, Val.vstr.injEq]
        exact fun he => h he.symm
      unfold DF.resetIndex DF.setIndex
      simp only [List.map_map, DF.mk.injEq]
      refine ⟨trivial, ?_, ?_⟩
      · show eraseFirst (Val.vstr i :: cols) (Val.vstr s) =
          Val.vstr i :: eraseFirst cols (Val.vstr s)
        rw [show eraseFirst (Val.vstr i :: cols) (Val.vstr s) =
            if Val.vstr i = Val.vstr s then cols
            else Val.vstr i :: eraseFirst cols (Val.vstr s) from rfl]
        rw [if_neg hne2]
      · refine Eq.trans (List.map_congr_left (fun q _ => ?_))
          (zip_range_map rows (fun p : Val × List Val =>
            ((extractCol cols p.2 (Val.vstr s)).1,
             p.1 :: (extractCol cols p.2 (Val.vstr s)).2)))
        simp [Function.comp, extractCol, hne2]

/-- Canonical result of `replace_column_names` on a consistent dataset:
the data columns become the chosen annotation column's values (in
annotation order), the annotation is re-keyed by those values with the old
identifier column re-inserted at the front, and the metabolite list
follows. -/
theorem replace_canon (st : State) (nc : String)
    (hcol : Val.vstr nc ∈ st.chem_ann.cols)
    (hinv : st.data.cols = st.chem_ann.labels)
    (hnda : st.chem_ann.labels.Nodup)
    (hne : nc ≠ st.chem_ann.iname)
    (hvnd : (st.chem_ann.rows.map (fun p =>
      getValD st.chem_ann.cols p.2 (Val.vstr nc))).Nodup) :
    replace_column_names st nc = ({ st with
      data := ⟨st.data.iname, st.chem_ann.rows.map (fun p =>
        getValD st.chem_ann.cols p.2 (Val.vstr nc)), st.data.rows⟩,
      mid_col := nc,
      chem_ann := ⟨nc,
        Val.vstr st.chem_ann.iname :: eraseFirst st.chem_ann.cols (Val.vstr nc),
        st.chem_ann.rows.map (fun p =>
          (getValD st.chem_ann.cols p.2 (Val.vstr nc),
           p.1 :: (extractCol st.chem_ann.cols p.2 (Val.vstr nc)).2))⟩,
      metabolites := st.chem_ann.rows.map (fun p =>
        getValD st.chem_ann.cols p.2 (Val.vstr nc)) }, none) := by
  have hann : ∀ c ∈ st.data.cols, c ∈ st.chem_ann.labels := by
    rw [hinv]
    exact fun c hc => hc
  have hdictfst : (renDict st nc).map Prod.fst = st.chem_ann.labels := by
    unfold renDict
    rw [List.map_map]
    rfl
  have hcolsmap : st.data.cols.map (lookupD (renDict st nc)) =
      st.chem_ann.rows.map (fun p =>
        getValD st.chem_ann.cols p.2 (Val.vstr nc)) := by
    rw [hinv, ← hdictfst,
      lookupD_zip_self _ (by rw [hdictfst]; exact hnda)]
    unfold renDict
    rw [List.map_map]
    rfl
  have hset : (st.chem_ann.resetIndex).setIndex nc = ⟨nc,
      Val.vstr st.chem_ann.iname :: eraseFirst st.chem_ann.cols (Val.vstr nc),
      st.chem_ann.rows.map (fun p =>
        (getValD st.chem_ann.cols p.2 (Val.vstr nc),
         p.1 :: (extractCol st.chem_ann.cols p.2 (Val.vstr nc)).2))⟩ := by
    rw [reset_set_ne st.chem_ann nc hne]
    congr 1
    apply List.map_congr_left
    intro p _
    rw [extractCol_fst]
  unfold replace_column_names
  rw [if_pos hcol, if_pos hann]
  dsimp only
  rw [hcolsmap, hset]
  unfold update_chem_ann
  dsimp only
  have hlabels : (DF.mk nc
      (Val.vstr st.chem_ann.iname :: eraseFirst st.chem_ann.cols (Val.vstr nc))
      (st.chem_ann.rows.map (fun p =>
        (getValD st.chem_ann.cols p.2 (Val.vstr nc),
         p.1 :: (extractCol st.chem_ann.cols p.2 (Val.vstr nc)).2)))).labels =
      st.chem_ann.rows.map (fun p =>
        getValD st.chem_ann.cols p.2 (Val.vstr nc)) := by
    rw [DF.labels]
    dsimp only
    rw [List.map_map]
    exact List.map_congr_left (fun p _ => rfl)
  have hself := locRows_self (DF.mk nc
      (Val.vstr st.chem_ann.iname :: eraseFirst st.chem_ann.cols (Val.vstr nc))
      (st.chem_ann.rows.map (fun p =>
        (getValD st.chem_ann.cols p.2 (Val.vstr nc),
         p.1 :: (extractCol st.chem_ann.cols p.2 (Val.vstr nc)).2))))
    (by rw [hlabels]; exact hvnd)
  rw [hlabels] at hself
  rw [hself]
  dsimp only
  rw [hlabels]

/-- Claim C5 (confirmed, with the proviso that the chemical annotation's
*column order* rotates — the restored identifier column moves to the
front, which is neither an identifier nor a cell value): on a consistent
dataset, renaming the feature identifiers to an annotation column `nc`
whose values are distinct (bijective over the features) and then renaming
back to the original identifier column restores the abundance matrix
exactly (index, columns and values), the active identifier column, the
metabolite list, the sample metadata, and the chemical annotation's index
name, index sequence and every column's value sequence. -/
theorem C5_rename_roundtrip (st : State) (nc : String)
    (hcol : Val.vstr nc ∈ st.chem_ann.cols)
    (hinv : st.data.cols = st.chem_ann.labels)
    (hmet : st.metabolites = st.chem_ann.labels)
    (hnda : st.chem_ann.labels.Nodup)
    (hiname : st.chem_ann.iname = st.mid_col)
    (hne : nc ≠ st.mid_col)
    (hvnd : (st.chem_ann.rows.map (fun p =>
      getValD st.chem_ann.cols p.2 (Val.vstr nc))).Nodup) :
    (replace_column_names st nc).2 = none ∧
    (replace_column_names (replace_column_names st nc).1 st.mid_col).2 = none ∧
    (replace_column_names (replace_column_names st nc).1 st.mid_col).1.data =
      st.data ∧
    (replace_column_names (replace_column_names st nc).1 st.mid_col).1.mid_col =
      st.mid_col ∧
    (replace_column_names (replace_column_names st nc).1 st.mid_col).1.metabolites =
      st.metabolites ∧
    (replace_column_names (replace_column_names st nc).1 st.mid_col).1.sample_metadata =
      st.sample_metadata ∧
    (replace_column_names (replace_column_names st nc).1 st.mid_col).1.samples =
      st.samples ∧
    (replace_column_names (replace_column_names st nc).1 st.mid_col).1.chem_ann.iname =
      st.chem_ann.iname ∧
    (replace_column_names (replace_column_names st nc).1 st.mid_col).1.chem_ann.labels =
      st.chem_ann.labels ∧
    (replace_column_names (replace_column_names st nc).1 st.mid_col).1.chem_ann.cols =
      Val.vstr nc :: eraseFirst st.chem_ann.cols (Val.vstr nc) ∧
    (∀ d ∈ st.chem_ann.cols,
      (replace_column_names (replace_column_names st nc).1 st.mid_col).1.chem_ann.colVals d =
        st.chem_ann.colVals d) := by
  have e1 := replace_canon st nc hcol hinv hnda
    (by rw [hiname]; exact hne) hvnd
  rw [e1]
  dsimp only
  -- hypotheses for the reverse rename on the canonical intermediate state
  have hinv2 : (st.chem_ann.rows.map (fun p =>
      getValD st.chem_ann.cols p.2 (Val.vstr nc))) =
      (DF.mk nc
        (Val.vstr st.chem_ann.iname :: eraseFirst st.chem_ann.cols (Val.vstr nc))
        (st.chem_ann.rows.map (fun p =>
          (getValD st.chem_ann.cols p.2 (Val.vstr nc),
           p.1 :: (extractCol st.chem_ann.cols p.2 (Val.vstr nc)).2)))).labels := by
    rw [DF.labels]
    dsimp only
    rw [List.map_map]
    exact List.map_congr_left (fun p _ => rfl)
  have hv2 : (st.chem_ann.rows.map (fun p =>
      (getValD st.chem_ann.cols p.2 (Val.vstr nc),
       p.1 :: (extractCol st.chem_ann.cols p.2 (Val.vstr nc)).2))).map
      (fun q => getValD (Val.vstr st.chem_ann.iname ::
        eraseFirst st.chem_ann.cols (Val.vstr nc)) q.2 (Val.vstr st.mid_col)) =
      st.chem_ann.labels := by
    rw [List.map_map, hiname]
    have hstep : st.chem_ann.rows.map
        ((fun q : Val × List Val => getValD (Val.vstr st.mid_col ::
            eraseFirst st.chem_ann.cols (Val.vstr nc)) q.2 (Val.vstr st.mid_col)) ∘
          (fun p : Val × List Val =>
            (getValD st.chem_ann.cols p.2 (Val.vstr nc),
             p.1 :: (extractCol st.chem_ann.cols p.2 (Val.vstr nc)).2))) =
        st.chem_ann.rows.map (fun p => p.1) :=
      List.map_congr_left (fun p _ => by
        show getValD (Val.vstr st.mid_col ::
          eraseFirst st.chem_ann.cols (Val.vstr nc))
          (p.1 :: (extractCol st.chem_ann.cols p.2 (Val.vstr nc)).2)
          (Val.vstr st.mid_col) = p.1
        rw [show getValD (Val.vstr st.mid_col ::
            eraseFirst st.chem_ann.cols (Val.vstr nc))
            (p.1 :: (extractCol st.chem_ann.cols p.2 (Val.vstr nc)).2)
            (Val.vstr st.mid_col) =
            if Val.vstr st.mid_col = Val.vstr st.mid_col then p.1
            else getValD (eraseFirst st.chem_ann.cols (Val.vstr nc))
              (extractCol st.chem_ann.cols p.2 (Val.vstr nc)).2
              (Val.vstr st.mid_col) from rfl]
        rw [if_pos rfl])
    rw [hstep]
    rfl
  have e2 := replace_canon
    { st with
        data := ⟨st.data.iname, st.chem_ann.rows.map (fun p =>
          getValD st.chem_ann.cols p.2 (Val.vstr nc)), st.data.rows⟩,
        mid_col := nc,
        chem_ann := ⟨nc,
          Val.vstr st.chem_ann.iname :: eraseFirst st.chem_ann.cols (Val.vstr nc),
          st.chem_ann.rows.map (fun p =>
            (getValD st.chem_ann.cols p.2 (Val.vstr nc),
             p.1 :: (extractCol st.chem_ann.cols p.2 (Val.vstr nc)).2))⟩,
        metabolites := st.chem_ann.rows.map (fun p =>
          getValD st.chem_ann.cols p.2 (Val.vstr nc)) }
    st.mid_col
    (by rw [hiname]; exact List.mem_cons_self _ _)
    hinv2
    (hinv2 ▸ hvnd)
    (fun he => hne he.symm)
    (by rw [hv2]; exact hnda)
  rw [e2]
  dsimp only
  refine ⟨rfl, rfl, ?_, rfl, ?_, rfl, rfl, ?_, ?_, ?_, ?_⟩
  · rw [hv2, ← hinv]
  · rw [hv2]
    exact hmet.symm
  · exact hiname.symm
  · -- the restored annotation index
    rw [DF.labels]
    dsimp only
    rw [List.map_map, List.map_map]
    have hstep : st.chem_ann.rows.map
        ((Prod.fst ∘ (fun q : Val × List Val =>
            (getValD (Val.vstr st.chem_ann.iname ::
                eraseFirst st.chem_ann.cols (Val.vstr nc)) q.2 (Val.vstr st.mid_col),
             q.1 :: (extractCol (Val.vstr st.chem_ann.iname ::
                eraseFirst st.chem_ann.cols (Val.vstr nc)) q.2
                (Val.vstr st.mid_col)).2))) ∘
          (fun p : Val × List Val =>
            (getValD st.chem_ann.cols p.2 (Val.vstr nc),
             p.1 :: (extractCol st.chem_ann.cols p.2 (Val.vstr nc)).2))) =
        st.chem_ann.rows.map (fun p => p.1) :=
      List.map_congr_left (fun p _ => by
        show getValD (Val.vstr st.chem_ann.iname ::
          eraseFirst st.chem_ann.cols (Val.vstr nc))
          (p.1 :: (extractCol st.chem_ann.cols p.2 (Val.vstr nc)).2)
          (Val.vstr st.mid_col) = p.1
        rw [hiname]
        rw [show getValD (Val.vstr st.mid_col ::
            eraseFirst st.chem_ann.cols (Val.vstr nc))
            (p.1 :: (extractCol st.chem_ann.cols p.2 (Val.vstr nc)).2)
            (Val.vstr st.mid_col) =
            if Val.vstr st.mid_col = Val.vstr st.mid_col then p.1
            else getValD (eraseFirst st.chem_ann.cols (Val.vstr nc))
              (extractCol st.chem_ann.cols p.2 (Val.vstr nc)).2
              (Val.vstr st.mid_col) from rfl]
        rw [if_pos rfl])
    rw [hstep]
    rfl
  · -- the restored annotation columns, rotated
    rw [hiname]
    rw [show eraseFirst (Val.vstr st.mid_col ::
        eraseFirst st.chem_ann.cols (Val.vstr nc)) (Val.vstr st.mid_col) =
        if Val.vstr st.mid_col = Val.vstr st.mid_col then
          eraseFirst st.chem_ann.cols (Val.vstr nc)
        else Val.vstr st.mid_col ::
          eraseFirst (eraseFirst st.chem_ann.cols (Val.vstr nc))
            (Val.vstr st.mid_col) from rfl]
    rw [if_pos rfl]
  · -- every annotation column keeps its values
    intro d hd
    rw [DF.colVals, DF.colVals]
    dsimp only
    rw [List.map_map, List.map_map]
    apply List.map_congr_left
    intro p _
    show getValD (Val.vstr nc :: eraseFirst
        (Val.vstr st.chem_ann.iname :: eraseFirst st.chem_ann.cols (Val.vstr nc))
        (Val.vstr st.mid_col))
      (getValD st.chem_ann.cols p.2 (Val.vstr nc) ::
        (extractCol (Val.vstr st.chem_ann.iname ::
          eraseFirst st.chem_ann.cols (Val.vstr nc))
          (p.1 :: (extractCol st.chem_ann.cols p.2 (Val.vstr nc)).2)
          (Val.vstr st.mid_col)).2) d =
      getValD st.chem_ann.cols p.2 d
    rw [hiname]
    rw [show extractCol (Val.vstr st.mid_col ::
        eraseFirst st.chem_ann.cols (Val.vstr nc))
        (p.1 :: (extractCol st.chem_ann.cols p.2 (Val.vstr nc)).2)
        (Val.vstr st.mid_col) =
        if Val.vstr st.mid_col = Val.vstr st.mid_col then
          (p.1, (extractCol st.chem_ann.cols p.2 (Val.vstr nc)).2)
        else ((extractCol (eraseFirst st.chem_ann.cols (Val.vstr nc))
            (extractCol st.chem_ann.cols p.2 (Val.vstr nc)).2
            (Val.vstr st.mid_col)).1,
          p.1 :: (extractCol (eraseFirst st.chem_ann.cols (Val.vstr nc))
            (extractCol st.chem_ann.cols p.2 (Val.vstr nc)).2
            (Val.vstr st.mid_col)).2) from rfl]
    rw [if_pos rfl]
    rw [show eraseFirst (Val.vstr st.mid_col ::
        eraseFirst st.chem_ann.cols (Val.vstr nc)) (Val.vstr st.mid_col) =
        if Val.vstr st.mid_col = Val.vstr st.mid_col then
          eraseFirst st.chem_ann.cols (Val.vstr nc)
        else Val.vstr st.mid_col ::
          eraseFirst (eraseFirst st.chem_ann.cols (Val.vstr nc))
            (Val.vstr st.mid_col) from rfl]
    rw [if_pos rfl]
    rw [show getValD (Val.vstr nc :: eraseFirst st.chem_ann.cols (Val.vstr nc))
        (getValD st.chem_ann.cols p.2 (Val.vstr nc) ::
          (extractCol st.chem_ann.cols p.2 (Val.vstr nc)).2) d =
        if Val.vstr nc = d then getValD st.chem_ann.cols p.2 (Val.vstr nc)
        else getValD (eraseFirst st.chem_ann.cols (Val.vstr nc))
          (extractCol st.chem_ann.cols p.2 (Val.vstr nc)).2 d from rfl]
    by_cases hdnc : Val.vstr nc = d
    · rw [if_pos hdnc, hdnc]
    · rw [if_neg hdnc]
      exact getValD_eraseFirst st.chem_ann.cols p.2 (Val.vstr nc) d
        (fun he => hdnc he.symm)

/-- Witness for C5 at the concrete dataset: renaming to NAME and back to
CHEM_ID restores the abundance matrix and the metabolite list exactly. -/
theorem C5_witness :
    (replace_column_names (replace_column_names exSt "NAME").1 "CHEM_ID").1.data =
      exSt.data ∧
    (replace_column_names (replace_column_names exSt "NAME").1 "CHEM_ID").1.metabolites =
      exSt.metabolites :=
  ⟨(C5_rename_roundtrip exSt "NAME" (by decide) (by decide) (by decide)
      (by decide) (by decide) (by decide) (by decide)).2.2.1,
   (C5_rename_roundtrip exSt "NAME" (by decide) (by decide) (by decide)
      (by decide) (by decide) (by decide) (by decide)).2.2.2.2.1⟩

theorem map_fst_pair (sel : List Val) (g : Val → List Val) :
    (sel.map (fun l => (l, g l))).map Prod.fst = sel := by
  rw [List.map_map]
  exact (List.map_congr_left (fun l _ => rfl)).trans (List.map_id _)

theorem cellsOf_length (df : DF) (hwf : df.WF) (l : Val) (hl : l ∈ df.labels) :
    (df.cellsOf l).length = df.cols.length := by
  have hsome : (df.rows.find? (fun p => decide (p.1 = l))).isSome := by
    rw [List.find?_isSome]
    rcases List.mem_map.mp hl with ⟨p, hp, rfl⟩
    exact ⟨p, hp, by simp⟩
  rcases Option.isSome_iff_exists.mp hsome with ⟨p, hp⟩
  have hmem : p ∈ df.rows := List.mem_of_find?_eq_some hp
  rw [DF.cellsOf]
  unfold cellsOfR
  rw [hp]
  exact hwf p hmem

/-- Two rows of a duplicate-free-index frame with the same label are the
same row. -/
theorem nodup_fst_inj (rows : List (Val × List Val))
    (hnd : (rows.map Prod.fst).Nodup) (p q : Val × List Val)
    (hp : p ∈ rows) (hq : q ∈ rows) (h : p.1 = q.1) : p = q := by
  have h1 : cellsOfR rows p.1 = p.2 := cellsOfR_self rows hnd p hp
  have h2 : cellsOfR rows q.1 = q.2 := cellsOfR_self rows hnd q hq
  rw [h] at h1
  have : p.2 = q.2 := by rw [← h1, h2]
  exact Prod.ext h this

/-- `List.mapM` into `Except` over a list on which the function always
succeeds. -/
theorem mapM_ok {α β : Type} (l : List α) (f : α → Except String β)
    (g : α → β) (h : ∀ x ∈ l, f x = Except.ok (g x)) :
    l.mapM f = Except.ok (l.map g) := by
  induction l with
  | nil => rfl
  | cons a as ih =>
      rw [List.mapM_cons, h a (List.mem_cons_self a as),
        ih (fun x hx => h x (List.mem_cons_of_mem a hx))]
      rfl

/-- One `split_by_sample_column` iteration on a consistent dataset: the
child re-imports the reset group, annotation and restricted data, ending
with exactly the group as sample metadata, the parent's annotation, and
the parent's data restricted to the group's samples. -/
theorem split_child_canon (st : State) (group : DF)
    (hginame : group.iname = st.sid_col)
    (hdiname : st.data.iname = st.sid_col)
    (hciname : st.chem_ann.iname = st.mid_col)
    (hglab : ∀ l ∈ group.labels, l ∈ st.data.labels)
    (hgnd : group.labels.Nodup)
    (hdnd : st.data.labels.Nodup)
    (hgstr : ∀ l ∈ group.labels, valToStr l = l)
    (hdstr : ∀ cc ∈ st.data.cols, valToStr cc = cc)
    (hcstr : ∀ l ∈ st.chem_ann.labels, valToStr l = l)
    (hinv : st.data.cols = st.chem_ann.labels)
    (hcnd : st.chem_ann.labels.Nodup)
    (hwf : st.data.WF) :
    split_child st group = Except.ok
      ⟨st.sid_col, st.mid_col, group, group.labels, st.chem_ann,
        st.chem_ann.labels,
        ⟨st.data.iname, st.data.cols,
          group.labels.map (fun l => (l, st.data.cellsOf l))⟩⟩ := by
  have htd := locRows_canon st.data group.labels hdnd hglab
  have hTDnd : (DF.mk st.data.iname st.data.cols
      (group.labels.map (fun l => (l, st.data.cellsOf l)))).cols.Nodup := by
    show st.data.cols.Nodup
    rw [hinv]
    exact hcnd
  have hTDwf : (DF.mk st.data.iname st.data.cols
      (group.labels.map (fun l => (l, st.data.cellsOf l)))).WF := by
    intro p hp
    rcases List.mem_map.mp hp with ⟨l, hl, rfl⟩
    exact cellsOf_length st.data hwf l (hglab l hl)
  have hsel : (DF.mk st.data.iname st.data.cols
      (group.labels.map (fun l => (l, st.data.cellsOf l)))).selectCols
        st.chem_ann.labels =
      some (DF.mk st.data.iname st.data.cols
        (group.labels.map (fun l => (l, st.data.cellsOf l)))) := by
    rw [← hinv]
    exact selectCols_self _ hTDnd hTDwf
  have hm2 : ((group.resetIndex).astypeStrCol st.sid_col).setIndex st.sid_col =
      group := by
    rw [reset_astype_set group st.sid_col hginame]
    rw [show group.rows.map (fun p => (valToStr p.1, p.2)) = group.rows from
      (List.map_congr_left (fun p hp => by
        rw [hgstr p.1 (List.mem_map_of_mem Prod.fst hp)]
        exact Prod.mk.eta)).trans (List.map_id _)]
    rw [← hginame]
  have hc2 : ((st.chem_ann.resetIndex).astypeStrCol st.mid_col).setIndex
      st.mid_col = st.chem_ann := by
    rw [reset_astype_set st.chem_ann st.mid_col hciname]
    rw [show st.chem_ann.rows.map (fun p => (valToStr p.1, p.2)) =
        st.chem_ann.rows from
      (List.map_congr_left (fun p hp => by
        rw [hcstr p.1 (List.mem_map_of_mem Prod.fst hp)]
        exact Prod.mk.eta)).trans (List.map_id _)]
    rw [← hciname]
  have hd2 : DF.setIndex
      ⟨((DF.mk st.data.iname st.data.cols
          (group.labels.map (fun l => (l, st.data.cellsOf l)))).resetIndex).iname,
        ((DF.mk st.data.iname st.data.cols
          (group.labels.map (fun l => (l, st.data.cellsOf l)))).resetIndex).cols.map
          valToStr,
        ((DF.mk st.data.iname st.data.cols
          (group.labels.map (fun l => (l, st.data.cellsOf l)))).resetIndex).rows⟩
      st.sid_col =
      DF.mk st.data.iname st.data.cols
        (group.labels.map (fun l => (l, st.data.cellsOf l))) :=
    reset_coerce_set _ st.sid_col hdiname hdstr
  have hsetup : setup_data (State.init st.sid_col st.mid_col)
      st.chem_ann.resetIndex group.resetIndex
      ((DF.mk st.data.iname st.data.cols
        (group.labels.map (fun l => (l, st.data.cellsOf l)))).resetIndex) =
      (⟨st.sid_col, st.mid_col, group, group.labels, st.chem_ann,
        st.chem_ann.labels,
        DF.mk st.data.iname st.data.cols
          (group.labels.map (fun l => (l, st.data.cellsOf l)))⟩, none) := by
    unfold setup_data parse_input State.init
    dsimp only
    rw [if_pos ?g1, if_pos ?g2]
    case g1 =>
      constructor
      · show Val.vstr st.sid_col ∈ Val.vstr st.data.iname :: st.data.cols
        rw [hdiname]
        exact List.mem_cons_self _ _
      · show Val.vstr st.sid_col ∈ Val.vstr group.iname :: group.cols
        rw [hginame]
        exact List.mem_cons_self _ _
    case g2 =>
      show Val.vstr st.mid_col ∈ Val.vstr st.chem_ann.iname :: st.chem_ann.cols
      rw [hciname]
      exact List.mem_cons_self _ _
    rw [hm2, hc2]
    rw [show DF.setIndex ⟨((DF.mk st.data.iname st.data.cols
        (group.labels.map (fun l => (l, st.data.cellsOf l)))).resetIndex).iname,
        ((DF.mk st.data.iname st.data.cols
          (group.labels.map (fun l => (l, st.data.cellsOf l)))).resetIndex).cols.map
          valToStr,
        ((DF.mk st.data.iname st.data.cols
          (group.labels.map (fun l => (l, st.data.cellsOf l)))).resetIndex).rows⟩
        st.sid_col =
        DF.mk st.data.iname st.data.cols
          (group.labels.map (fun l => (l, st.data.cellsOf l))) from hd2]
  unfold split_child
  rw [htd]
  dsimp only
  rw [show import_tables (State.init st.sid_col st.mid_col)
      ((DF.mk st.data.iname st.data.cols
        (group.labels.map (fun l => (l, st.data.cellsOf l)))).resetIndex)
      st.chem_ann.resetIndex group.resetIndex =
      (⟨st.sid_col, st.mid_col, group, group.labels, st.chem_ann,
        st.chem_ann.labels,
        DF.mk st.data.iname st.data.cols
          (group.labels.map (fun l => (l, st.data.cellsOf l)))⟩, none) from by
    unfold import_tables
    rw [hsetup]
    unfold remove_metadata_from_data
    dsimp only
    rw [hsel]]
  dsimp only
  rw [show update_chem_ann ⟨st.sid_col, st.mid_col, group, group.labels,
      st.chem_ann, st.chem_ann.labels,
      DF.mk st.data.iname st.data.cols
        (group.labels.map (fun l => (l, st.data.cellsOf l)))⟩ =
      (⟨st.sid_col, st.mid_col, group, group.labels, st.chem_ann,
        st.chem_ann.labels,
        DF.mk st.data.iname st.data.cols
          (group.labels.map (fun l => (l, st.data.cellsOf l)))⟩, none) from by
    unfold update_chem_ann
    dsimp only
    rw [show st.data.cols = st.chem_ann.labels from hinv,
      locRows_self st.chem_ann hcnd]]
  dsimp only
  rw [show update_sample_metadata ⟨st.sid_col, st.mid_col, group, group.labels,
      st.chem_ann, st.chem_ann.labels,
      DF.mk st.data.iname st.data.cols
        (group.labels.map (fun l => (l, st.data.cellsOf l)))⟩ =
      (⟨st.sid_col, st.mid_col, group, group.labels, st.chem_ann,
        st.chem_ann.labels,
        DF.mk st.data.iname st.data.cols
          (group.labels.map (fun l => (l, st.data.cellsOf l)))⟩, none) from by
    unfold update_sample_metadata
    dsimp only
    rw [show (DF.mk st.data.iname st.data.cols
        (group.labels.map (fun l => (l, st.data.cellsOf l)))).labels =
        group.labels from map_fst_pair group.labels _,
      locRows_self group hgnd]]
  dsimp only
  rw [show remove_metadata_from_data ⟨st.sid_col, st.mid_col, group,
      group.labels, st.chem_ann, st.chem_ann.labels,
      DF.mk st.data.iname st.data.cols
        (group.labels.map (fun l => (l, st.data.cellsOf l)))⟩ =
      (⟨st.sid_col, st.mid_col, group, group.labels, st.chem_ann,
        st.chem_ann.labels,
        DF.mk st.data.iname st.data.cols
          (group.labels.map (fun l => (l, st.data.cellsOf l)))⟩, none) from by
    unfold remove_metadata_from_data
    dsimp only
    rw [hsel]]

/-- Membership facts for a group's labels. -/
theorem groupDF_labels_sub (df : DF) (c : String) (k : Val) :
    ∀ l ∈ (groupDF df c k).labels, l ∈ df.labels := by
  intro l hl
  rcases List.mem_map.mp hl with ⟨p, hp, rfl⟩
  exact List.mem_map_of_mem Prod.fst (List.mem_of_mem_filter hp)

theorem groupDF_labels_nodup (df : DF) (c : String) (k : Val)
    (hnd : df.labels.Nodup) : (groupDF df c k).labels.Nodup := by
  have hsub : ((df.rows.filter (fun p =>
      decide (getValD df.cols p.2 (Val.vstr c) = k))).map Prod.fst).Sublist
      (df.rows.map Prod.fst) :=
    (List.filter_sublist df.rows).map Prod.fst
  exact hnd.sublist hsub

/-- Canonical result of `split_by_sample_column` on a consistent dataset:
one child per sorted non-NaN key, each child being the group as sample
metadata, the parent's annotation, and the parent's data restricted to the
group's samples. -/
theorem split_canon (st : State) (c : String)
    (hccol : Val.vstr c ∈ st.sample_metadata.cols)
    (hminame : st.sample_metadata.iname = st.sid_col)
    (hdiname : st.data.iname = st.sid_col)
    (hciname : st.chem_ann.iname = st.mid_col)
    (hmnd : st.sample_metadata.labels.Nodup)
    (hdnd : st.data.labels.Nodup)
    (hmd : ∀ l ∈ st.sample_metadata.labels, l ∈ st.data.labels)
    (hmstr : ∀ l ∈ st.sample_metadata.labels, valToStr l = l)
    (hdstr : ∀ cc ∈ st.data.cols, valToStr cc = cc)
    (hcstr : ∀ l ∈ st.chem_ann.labels, valToStr l = l)
    (hinv : st.data.cols = st.chem_ann.labels)
    (hcnd : st.chem_ann.labels.Nodup)
    (hwf : st.data.WF) :
    split_by_sample_column st c = Except.ok
      ((groupKeys st.sample_metadata c).map (fun k =>
        (k, ⟨st.sid_col, st.mid_col, groupDF st.sample_metadata c k,
          (groupDF st.sample_metadata c k).labels, st.chem_ann,
          st.chem_ann.labels,
          ⟨st.data.iname, st.data.cols,
            (groupDF st.sample_metadata c k).labels.map
              (fun l => (l, st.data.cellsOf l))⟩⟩))) := by
  unfold split_by_sample_column
  rw [show st.sample_metadata.groupby c = some
      ((groupKeys st.sample_metadata c).map (fun k =>
        (k, groupDF st.sample_metadata c k))) from by
    unfold DF.groupby
    rw [if_pos hccol]]
  dsimp only
  rw [mapM_ok ((groupKeys st.sample_metadata c).map (fun k =>
      (k, groupDF st.sample_metadata c k)))
    (fun g => (split_child st g.2).map (fun child => (g.1, child)))
    (fun g => (g.1, ⟨st.sid_col, st.mid_col, g.2,
      g.2.labels, st.chem_ann, st.chem_ann.labels,
      ⟨st.data.iname, st.data.cols,
        g.2.labels.map (fun l => (l, st.data.cellsOf l))⟩⟩))
    ?h]
  case h =>
    intro x hx
    rcases List.mem_map.mp hx with ⟨k, _, rfl⟩
    dsimp only
    rw [split_child_canon st (groupDF st.sample_metadata c k)
      hminame hdiname hciname
      (fun l hl => hmd l (groupDF_labels_sub st.sample_metadata c k l hl))
      (groupDF_labels_nodup st.sample_metadata c k hmnd)
      hdnd
      (fun l hl => hmstr l (groupDF_labels_sub st.sample_metadata c k l hl))
      hdstr hcstr hinv hcnd hwf]
    rfl
  rw [List.map_map]
  rfl

theorem flatMap_congr_left {α β : Type} (l : List α) (f g : α → List β)
    (h : ∀ a ∈ l, f a = g a) : l.flatMap f = l.flatMap g := by
  induction l with
  | nil => rfl
  | cons a as ih =>
      rw [List.flatMap_cons, List.flatMap_cons, h a (List.mem_cons_self a as),
        ih (fun x hx => h x (List.mem_cons_of_mem a hx))]

theorem flatMap_map_comm {α β γ : Type} (l : List α) (h : α → List β)
    (f : β → γ) :
    l.flatMap (fun a => (h a).map f) = (l.flatMap h).map f := by
  induction l with
  | nil => rfl
  | cons a as ih =>
      rw [List.flatMap_cons, List.flatMap_cons, List.map_append, ih]

/-- Partitioning a row list by its key values over a duplicate-free,
covering key list is a permutation of the row list. -/
theorem flatMap_filter_key_perm (rows : List (Val × List Val))
    (key : Val × List Val → Val) (keys : List Val)
    (hnd : keys.Nodup) (hcov : ∀ p ∈ rows, key p ∈ keys) :
    List.Perm (keys.flatMap (fun k =>
      rows.filter (fun p => decide (key p = k)))) rows := by
  induction keys generalizing rows with
  | nil =>
      cases rows with
      | nil => exact List.Perm.refl _
      | cons p ps =>
          exact absurd (hcov p (List.mem_cons_self p ps)) (List.not_mem_nil _)
  | cons k ks ih =>
      simp only [List.nodup_cons] at hnd
      rw [List.flatMap_cons]
      have hstep : ks.flatMap (fun k' =>
          rows.filter (fun p => decide (key p = k'))) =
          ks.flatMap (fun k' =>
            (rows.filter (fun p => !decide (key p = k))).filter
              (fun p => decide (key p = k'))) := by
        apply flatMap_congr_left
        intro k' hk'
        rw [List.filter_filter]
        apply List.filter_congr
        intro p _
        by_cases hp : key p = k'
        · have hkk : ¬ k' = k := fun he => hnd.1 (he ▸ hk')
          simp [hp, hkk]
        · simp [hp]
      rw [hstep]
      have hcov2 : ∀ p ∈ rows.filter (fun p => !decide (key p = k)),
          key p ∈ ks := by
        intro p hp
        have hmem := List.mem_of_mem_filter hp
        have hne : ¬ key p = k := by simpa using List.of_mem_filter hp
        rcases List.mem_cons.mp (hcov p hmem) with h | h
        · exact absurd h hne
        · exact h
      exact (List.Perm.append_left _
        (ih (rows.filter (fun p => !decide (key p = k))) hnd.2 hcov2)).trans
        (List.filter_append_perm _ rows)

theorem groupKeys_nodup (df : DF) (c : String) : (groupKeys df c).Nodup :=
  (insSort_nodup _ (List.nodup_dedup _)).filter _

theorem key_mem_groupKeys (df : DF) (c : String) (p : Val × List Val)
    (hp : p ∈ df.rows)
    (hnn : getValD df.cols p.2 (Val.vstr c) ≠ Val.nan) :
    getValD df.cols p.2 (Val.vstr c) ∈ groupKeys df c := by
  unfold groupKeys
  apply List.mem_filter.mpr
  refine ⟨?_, by simpa using hnn⟩
  rw [mem_insSort, List.mem_dedup]
  exact List.mem_map_of_mem (fun p => getValD df.cols p.2 (Val.vstr c)) hp

theorem groupDF_labels_disjoint (df : DF) (c : String)
    (hnd : df.labels.Nodup) (k1 k2 : Val) (hne : k1 ≠ k2) (l : Val)
    (h1 : l ∈ (groupDF df c k1).labels) : l ∉ (groupDF df c k2).labels := by
  intro h2
  rcases List.mem_map.mp h1 with ⟨p1, hp1, he1⟩
  rcases List.mem_map.mp h2 with ⟨p2, hp2, he2⟩
  have heq : p1 = p2 := nodup_fst_inj df.rows hnd p1 p2
    (List.mem_of_mem_filter hp1) (List.mem_of_mem_filter hp2)
    (he1.trans he2.symm)
  have hk1 : getValD df.cols p1.2 (Val.vstr c) = k1 := by
    simpa using List.of_mem_filter hp1
  have hk2 : getValD df.cols p2.2 (Val.vstr c) = k2 := by
    simpa using List.of_mem_filter hp2
  apply hne
  rw [← hk1, heq, hk2]

/-- Claim C2, amended (pandas groupby drops rows whose key is missing, and
concatenation recovers the parent's rows only up to row order): on a
consistent dataset whose split column has no missing values,
`split_by_sample_column` succeeds; the children's sample sets are pairwise
disjoint; their union is exactly the parent's sample set; each child's
abundance matrix is the parent's restricted to that child's samples (same
columns, rows looked up by label); and the concatenation of the children's
abundance rows is a permutation of the parent's abundance rows. -/
theorem C2_split_partition (st : State) (c : String)
    (hccol : Val.vstr c ∈ st.sample_metadata.cols)
    (hnonan : ∀ v ∈ st.sample_metadata.colVals (Val.vstr c), v ≠ Val.nan)
    (hminame : st.sample_metadata.iname = st.sid_col)
    (hdiname : st.data.iname = st.sid_col)
    (hciname : st.chem_ann.iname = st.mid_col)
    (hmnd : st.sample_metadata.labels.Nodup)
    (hdnd : st.data.labels.Nodup)
    (hmd : ∀ l ∈ st.sample_metadata.labels, l ∈ st.data.labels)
    (hdm : ∀ l ∈ st.data.labels, l ∈ st.sample_metadata.labels)
    (hmstr : ∀ l ∈ st.sample_metadata.labels, valToStr l = l)
    (hdstr : ∀ cc ∈ st.data.cols, valToStr cc = cc)
    (hcstr : ∀ l ∈ st.chem_ann.labels, valToStr l = l)
    (hinv : st.data.cols = st.chem_ann.labels)
    (hcnd : st.chem_ann.labels.Nodup)
    (hwf : st.data.WF) :
    ∃ gs, split_by_sample_column st c = Except.ok gs ∧
      List.Pairwise (fun a b => ∀ l, l ∈ a.2.samples → l ∉ b.2.samples) gs ∧
      (∀ l, l ∈ st.sample_metadata.labels ↔ ∃ g ∈ gs, l ∈ g.2.samples) ∧
      (∀ g ∈ gs, g.2.data = ⟨st.data.iname, st.data.cols,
        g.2.samples.map (fun l => (l, st.data.cellsOf l))⟩) ∧
      List.Perm (gs.flatMap (fun g => g.2.data.rows)) st.data.rows := by
  refine ⟨_, split_canon st c hccol hminame hdiname hciname hmnd hdnd hmd
    hmstr hdstr hcstr hinv hcnd hwf, ?_, ?_, ?_, ?_⟩
  · -- pairwise disjoint sample sets
    rw [List.pairwise_map]
    have hkeys : (groupKeys st.sample_metadata c).Pairwise (· ≠ ·) :=
      groupKeys_nodup st.sample_metadata c
    apply List.Pairwise.imp ?_ hkeys
    intro k1 k2 hne l hl
    exact groupDF_labels_disjoint st.sample_metadata c hmnd k1 k2 hne l hl
  · -- the union of the children's samples is the parent's sample set
    intro l
    constructor
    · intro hl
      rcases List.mem_map.mp hl with ⟨p, hp, rfl⟩
      have hk := key_mem_groupKeys st.sample_metadata c p hp
        (hnonan _ (List.mem_map_of_mem
          (fun p => getValD st.sample_metadata.cols p.2 (Val.vstr c)) hp))
      refine ⟨(getValD st.sample_metadata.cols p.2 (Val.vstr c),
        ⟨st.sid_col, st.mid_col,
          groupDF st.sample_metadata c
            (getValD st.sample_metadata.cols p.2 (Val.vstr c)),
          (groupDF st.sample_metadata c
            (getValD st.sample_metadata.cols p.2 (Val.vstr c))).labels,
          st.chem_ann, st.chem_ann.labels,
          ⟨st.data.iname, st.data.cols,
            (groupDF st.sample_metadata c
              (getValD st.sample_metadata.cols p.2 (Val.vstr c))).labels.map
              (fun l => (l, st.data.cellsOf l))⟩⟩), ?_, ?_⟩
      · exact List.mem_map_of_mem _ hk
      · show p.1 ∈ (groupDF st.sample_metadata c _).labels
        apply List.mem_map_of_mem Prod.fst
        apply List.mem_filter.mpr
        exact ⟨hp, by simp⟩
    · intro hg
      rcases hg with ⟨g, hgmem, hlg⟩
      rcases List.mem_map.mp hgmem with ⟨k, _, rfl⟩
      exact groupDF_labels_sub st.sample_metadata c k l hlg
  · -- each child's data is the parent's restriction
    intro g hg
    rcases List.mem_map.mp hg with ⟨k, _, rfl⟩
    rfl
  · -- concatenation is a permutation of the parent's rows
    rw [show ((groupKeys st.sample_metadata c).map (fun k =>
        (k, (⟨st.sid_col, st.mid_col, groupDF st.sample_metadata c k,
          (groupDF st.sample_metadata c k).labels, st.chem_ann,
          st.chem_ann.labels,
          ⟨st.data.iname, st.data.cols,
            (groupDF st.sample_metadata c k).labels.map
              (fun l => (l, st.data.cellsOf l))⟩⟩ : State)))).flatMap
        (fun g => g.2.data.rows) =
        (groupKeys st.sample_metadata c).flatMap (fun k =>
          (st.sample_metadata.rows.filter (fun p =>
            decide (getValD st.sample_metadata.cols p.2 (Val.vstr c) = k))).map
            (fun p => (p.1, st.data.cellsOf p.1))) from by
      rw [List.flatMap_map]
      apply flatMap_congr_left
      intro k _
      dsimp only
      show ((groupDF st.sample_metadata c k).labels.map
        (fun l => (l, st.data.cellsOf l))) = _
      rw [DF.labels]
      rw [List.map_map]
      rfl]
    rw [flatMap_map_comm]
    refine ((flatMap_filter_key_perm st.sample_metadata.rows
      (fun p => getValD st.sample_metadata.cols p.2 (Val.vstr c))
      (groupKeys st.sample_metadata c) (groupKeys_nodup _ _) ?_).map _).trans ?_
    · intro p hp
      exact key_mem_groupKeys st.sample_metadata c p hp
        (hnonan _ (List.mem_map_of_mem
          (fun p => getValD st.sample_metadata.cols p.2 (Val.vstr c)) hp))
    · -- the parent's metadata rows, relabelled to data rows, permute the
      -- parent's data rows
      have h1 : st.sample_metadata.rows.map (fun p => (p.1, st.data.cellsOf p.1)) =
          st.sample_metadata.labels.map (fun l => (l, st.data.cellsOf l)) := by
        rw [DF.labels, List.map_map]
        rfl
      rw [h1]
      have hperm : List.Perm st.sample_metadata.labels st.data.labels :=
        (List.perm_ext_iff_of_nodup hmnd hdnd).mpr
          (fun a => ⟨fun ha => hmd a ha, fun ha => hdm a ha⟩)
      refine (hperm.map _).trans ?_
      have h2 : st.data.labels.map (fun l => (l, st.data.cellsOf l)) =
          st.data.rows := rows_reconstruct st.data.rows hdnd
      rw [h2]

/-- Counterexample for C2 as stated: with a missing (NaN) `batch` value for
sample S2, groupby drops S2's row, so the union of the partitions' samples
is only S1 while the parent's sample set is S1, S2 — a sample that belongs
to no partition. -/
theorem C2_counterexample :
    (split_by_sample_column exStNaN "batch").toOption.map
      (fun gs => gs.flatMap (fun g => g.2.samples)) = some [strv "S1"] ∧
    exStNaN.samples = [strv "S1", strv "S2"] := by
  decide

/-- Witness for C2 at the concrete dataset: splitting on `batch` succeeds
with two singleton partitions covering S1 and S2. -/
theorem C2_witness :
    ∃ gs, split_by_sample_column exSt "batch" = Except.ok gs ∧
      (∀ l, l ∈ exSt.sample_metadata.labels ↔ ∃ g ∈ gs, l ∈ g.2.samples) := by
  obtain ⟨gs, hgs, _, hcover, _, _⟩ := C2_split_partition exSt "batch"
    (by decide) (by decide) (by decide) (by decide) (by decide) (by decide)
    (by decide) (by decide) (by decide) (by decide) (by decide) (by decide)
    (by decide) (by decide) (by decide)
  exact ⟨gs, hgs, hcover⟩

/-- Claim C1, amended: the column half of the invariant (abundance columns
equal, as a sequence, to the chemical-annotation index) is established by
the import's final step (`_remove_metadata_from_data`) whenever it
succeeds on a duplicate-free well-formed abundance table, which also
leaves the row index unchanged; and on a consistent state both invariant
halves are preserved by `drop_samples`, `drop_metabolites`,
`drop_xenobiotic_metabolites`, `replace_column_names` (with pairwise
distinct new identifiers) and by every child of `split_by_sample_column`.
Construction does not establish the row-subset half (see the
counterexample). -/
theorem C1_invariants (st : State)
    (hinv : st.data.cols = st.chem_ann.labels)
    (hrow : ∀ l ∈ st.data.labels, l ∈ st.sample_metadata.labels)
    (hmnd : st.sample_metadata.labels.Nodup)
    (hdnd : st.data.labels.Nodup)
    (hcnd : st.chem_ann.labels.Nodup)
    (hminame : st.sample_metadata.iname = st.sid_col)
    (hdiname : st.data.iname = st.sid_col)
    (hciname : st.chem_ann.iname = st.mid_col)
    (hmstr : ∀ l ∈ st.sample_metadata.labels, valToStr l = l)
    (hdstr : ∀ c ∈ st.data.cols, valToStr c = c)
    (hcstr : ∀ l ∈ st.chem_ann.labels, valToStr l = l)
    (hwf : st.data.WF)
    (hmd : ∀ l ∈ st.sample_metadata.labels, l ∈ st.data.labels) :
    (∀ t t1 : State, t.data.cols.Nodup → t.data.WF →
      remove_metadata_from_data t = (t1, none) →
      t1.data.cols = t1.chem_ann.labels ∧ t1.data.labels = t.data.labels) ∧
    (∀ ids st1, drop_samples st ids = (st1, none) → Inv st1) ∧
    (∀ ids st1, drop_metabolites st ids = (st1, none) → Inv st1) ∧
    (∀ st1, drop_xenobiotic_metabolites st = (st1, none) → Inv st1) ∧
    (∀ (nc : String) st1, Val.vstr nc ∈ st.chem_ann.cols →
      nc ≠ st.chem_ann.iname →
      (st.chem_ann.rows.map (fun p =>
        getValD st.chem_ann.cols p.2 (Val.vstr nc))).Nodup →
      replace_column_names st nc = (st1, none) → Inv st1) ∧
    (∀ (c : String) gs, split_by_sample_column st c = Except.ok gs →
      ∀ g ∈ gs, Inv g.2) := by
  have h1 : ∀ t t1 : State, t.data.cols.Nodup → t.data.WF →
      remove_metadata_from_data t = (t1, none) →
      t1.data.cols = t1.chem_ann.labels ∧ t1.data.labels = t.data.labels := by
    intro t t1 hnd hwf' hsucc
    unfold remove_metadata_from_data at hsucc
    cases hsel : t.data.selectCols t.chem_ann.labels with
    | none =>
        rw [hsel] at hsucc
        simp at hsucc
    | some d =>
        rw [hsel] at hsucc
        dsimp only at hsucc
        have hd : d = ⟨t.data.iname, t.chem_ann.labels,
            t.data.rows.map (fun p =>
              (p.1, t.chem_ann.labels.map (fun c => getValD t.data.cols p.2 c)))⟩ := by
          by_cases hsub : ∀ c ∈ t.chem_ann.labels, c ∈ t.data.cols
          · have hcan := selectCols_canon t.data t.chem_ann.labels hnd hsub hwf'
            rw [hsel] at hcan
            exact Option.some.inj hcan
          · unfold DF.selectCols at hsel
            rw [if_neg hsub] at hsel
            exact Option.noConfusion hsel
        have ht1 := congrArg Prod.fst hsucc
        dsimp only at ht1
        subst ht1
        subst hd
        refine ⟨rfl, ?_⟩
        show (t.data.rows.map _).map Prod.fst = t.data.labels
        rw [List.map_map]
        exact List.map_congr_left (fun p _ => rfl)
  have h2 : ∀ ids st1, drop_samples st ids = (st1, none) → Inv st1 := by
    intro ids st1 hsucc
    unfold drop_samples at hsucc
    cases hdrop : st.data.dropIndexLs (ids.map valToStr) with
    | none =>
        rw [hdrop] at hsucc
        simp at hsucc
    | some remaining =>
        rw [hdrop] at hsucc
        dsimp only at hsucc
        unfold update_sample_metadata at hsucc
        dsimp only at hsucc
        by_cases hsub : ∀ l ∈ remaining.labels, l ∈ st.sample_metadata.labels
        · rw [locRows_canon st.sample_metadata remaining.labels hmnd hsub] at hsucc
          dsimp only at hsucc
          have ht1 := congrArg Prod.fst hsucc
          dsimp only at ht1
          subst ht1
          unfold Inv
          refine ⟨?_, ?_⟩
          · have hc : remaining.cols = st.data.cols := by
              unfold DF.dropIndexLs at hdrop
              by_cases hls : ∀ l ∈ ids.map valToStr, l ∈ st.data.labels
              · rw [if_pos hls] at hdrop
                have hr := Option.some.inj hdrop
                rw [← hr]
              · rw [if_neg hls] at hdrop
                exact Option.noConfusion hdrop
            show remaining.cols = st.chem_ann.labels
            rw [hc]
            exact hinv
          · intro l hl
            rw [DF.labels]
            dsimp only
            rw [map_fst_pair]
            exact hl
        · have hnone : st.sample_metadata.locRows remaining.labels = none := by
            unfold DF.locRows
            rw [if_neg hsub]
          rw [hnone] at hsucc
          simp at hsucc
  have h3 : ∀ ids st1, drop_metabolites st ids = (st1, none) → Inv st1 := by
    intro ids st1 hsucc
    by_cases hin : ∀ c ∈ ids.map valToStr, c ∈ st.data.cols
    · rw [drop_metabolites_canon st ids hin (fun c hc => hinv ▸ hc) hcnd] at hsucc
      have ht1 := congrArg Prod.fst hsucc
      dsimp only at ht1
      subst ht1
      unfold Inv
      refine ⟨?_, ?_⟩
      · rw [DF.labels]
        dsimp only
        rw [map_fst_pair]
      · intro l hl
        apply hrow
        rw [DF.labels] at hl
        dsimp only at hl
        rw [List.map_map] at hl
        have hm : st.data.rows.map
            (Prod.fst ∘ fun p => (p.1, keepCells st.data.cols p.2 (ids.map valToStr))) =
            st.data.labels := List.map_congr_left (fun p _ => rfl)
        rw [hm] at hl
        exact hl
    · unfold drop_metabolites at hsucc
      have hnone : st.data.dropColsLs (ids.map valToStr) = none := by
        unfold DF.dropColsLs
        rw [if_neg hin]
      rw [hnone] at hsucc
      simp at hsucc
  have h4 : ∀ st1, drop_xenobiotic_metabolites st = (st1, none) → Inv st1 := by
    intro st1 hsucc
    unfold drop_xenobiotic_metabolites at hsucc
    by_cases hsp : Val.vstr "SUPER_PATHWAY" ∈ st.chem_ann.cols
    · rw [if_pos hsp] at hsucc
      exact h3 (xenoIds st) st1 hsucc
    · rw [if_neg hsp] at hsucc
      simp at hsucc
  have h5 : ∀ (nc : String) st1, Val.vstr nc ∈ st.chem_ann.cols →
      nc ≠ st.chem_ann.iname →
      (st.chem_ann.rows.map (fun p =>
        getValD st.chem_ann.cols p.2 (Val.vstr nc))).Nodup →
      replace_column_names st nc = (st1, none) → Inv st1 := by
    intro nc st1 hcol hne hvnd hsucc
    rw [replace_canon st nc hcol hinv hcnd hne hvnd] at hsucc
    have ht1 := congrArg Prod.fst hsucc
    dsimp only at ht1
    subst ht1
    unfold Inv
    refine ⟨?_, ?_⟩
    · rw [DF.labels]
      dsimp only
      rw [List.map_map]
      exact List.map_congr_left (fun p _ => rfl)
    · intro l hl
      exact hrow l hl
  have h6 : ∀ (c : String) gs, split_by_sample_column st c = Except.ok gs →
      ∀ g ∈ gs, Inv g.2 := by
    intro c gs hsucc g hg
    by_cases hccol : Val.vstr c ∈ st.sample_metadata.cols
    · rw [split_canon st c hccol hminame hdiname hciname hmnd hdnd hmd hmstr
        hdstr hcstr hinv hcnd hwf] at hsucc
      have hgs := Except.ok.inj hsucc
      subst hgs
      rcases List.mem_map.mp hg with ⟨k, _, rfl⟩
      unfold Inv
      refine ⟨?_, ?_⟩
      · exact hinv
      · intro l hl
        rw [DF.labels] at hl
        dsimp only at hl
        rw [map_fst_pair] at hl
        exact hl
    · unfold split_by_sample_column at hsucc
      have hgb : st.sample_metadata.groupby c = none := by
        unfold DF.groupby
        rw [if_neg hccol]
      rw [hgb] at hsucc
      dsimp only at hsucc
      exact Except.noConfusion hsucc
  exact ⟨h1, h2, h3, h4, h5, h6⟩

/-- Counterexample for C1 as stated: importing an abundance table with a
row for a sample (S4) that the sample metadata does not contain succeeds
without error, and the resulting reachable state violates the row half of
the invariant — S4 is in the abundance matrix's row index but not in the
sample-metadata index. -/
theorem C1_counterexample :
    (import_tables (State.init "PARENT_SAMPLE_NAME" "CHEM_ID")
      exDataX exChem exMeta).2 = none ∧
    strv "S4" ∈ exStX.data.labels ∧
    strv "S4" ∉ exStX.sample_metadata.labels := by
  decide

/-- Witness for C1 at the concrete dataset: the invariant is preserved by
sample drops and by every partition child. -/
theorem C1_witness :
    (∀ ids st1, drop_samples exSt ids = (st1, none) → Inv st1) ∧
    (∀ (c : String) gs, split_by_sample_column exSt c = Except.ok gs →
      ∀ g ∈ gs, Inv g.2) := by
  have h := C1_invariants exSt (by decide) (by decide) (by decide) (by decide)
    (by decide) (by decide) (by decide) (by decide) (by decide) (by decide)
    (by decide) (by decide) (by decide)
  exact ⟨h.2.1, h.2.2.2.2.2⟩

end MetaboTK
